import Mathlib

/-!
Shallow embedding of the Creatrr backend query/mutation layer
(Convex handlers over a document store) and proofs about the
ranking, analytics and engagement operations.

Conventions of the embedding:
* every table of the document store is a Lean list kept in ascending
  insertion order, so the store-native descending order used by
  `.order("desc")` is `List.reverse`;
* timestamps are integers (milliseconds since epoch); day keys used by
  dailyStats rows are integers as well (the source uses `YYYY-MM-DD`
  strings, which biject onto day numbers for a fixed server clock);
* JavaScript numbers holding counters are embedded as `Int`
  (all arithmetic in the handlers is exact integer arithmetic except
  the growth percentages, embedded as `Rat`);
* a Convex `.unique()` call throws when more than one row matches, so
  handlers that reach one are embedded in `Except String`;
* a thrown error inside a Convex mutation rolls the transaction back,
  so applying a failing mutation leaves the embedded state unchanged.
-/

deriving instance DecidableEq for Except

inductive PostStatus
  | draft
  | published
deriving DecidableEq, Repr

structure User where
  id : Nat
  tokenIdentifier : String
  name : String
  username : Option String
  email : String
  imageUrl : Option String
  createdAt : Int
  lastActiveAt : Int
deriving DecidableEq, Repr

structure Post where
  id : Nat
  authorId : Nat
  title : String
  content : String
  status : PostStatus
  tags : List String
  category : Option String
  featuredImage : Option String
  createdAt : Int
  updatedAt : Int
  publishedAt : Option Int
  scheduledFor : Option Int
  viewCount : Int
  likeCount : Int
deriving DecidableEq, Repr

structure Like where
  id : Nat
  postId : Nat
  userId : Option Nat
  createdAt : Int
deriving DecidableEq, Repr

structure Comment where
  id : Nat
  postId : Nat
  authorName : String
  content : String
  status : String
  createdAt : Int
deriving DecidableEq, Repr

structure Follow where
  id : Nat
  followerId : Nat
  followingId : Nat
  createdAt : Int
deriving DecidableEq, Repr

structure DailyStat where
  id : Nat
  postId : Nat
  date : Int
  views : Int
deriving DecidableEq, Repr

structure DB where
  users : List User
  posts : List Post
  likes : List Like
  comments : List Comment
  follows : List Follow
  dailyStats : List DailyStat
  nextId : Nat
deriving DecidableEq, Repr

/-- Embedding of a Convex `query(...).filter(p).unique()` call: `ok none`
when no row matches, `ok (some r)` for a single match, and an error (the
thrown exception) when several rows match. -/
def uniqueFilter {α : Type} (l : List α) (p : α → Bool) : Except String (Option α) :=
  match l.filter p with
  | [] => Except.ok none
  | [a] => Except.ok (some a)
  | _ :: _ :: _ => Except.error "unique: more than one result"

/-- Embedding of `ctx.db.get` on the posts table. -/
def getPost (db : DB) (id : Nat) : Option Post :=
  db.posts.find? (fun p => p.id == id)

/-- Embedding of `ctx.db.get` on the users table. -/
def getUser (db : DB) (id : Nat) : Option User :=
  db.users.find? (fun u => u.id == id)

/-- Embedding of `ctx.db.patch` on a posts row: apply `f` to the row with
the given id, leaving every other row in place. -/
def patchById (posts : List Post) (id : Nat) (f : Post → Post) : List Post :=
  posts.map (fun p => if p.id == id then f p else p)

/-- Embedding of the JavaScript defaulting idiom `args.limit || 10`
(note that an explicit limit of 0 is falsy and falls back to 10). -/
def defLimit (limitArg : Option Nat) : Nat :=
  match limitArg with
  | none => 10
  | some n => if n == 0 then 10 else n

/-- Truthiness of an optional string, as JavaScript sees it: present and
nonempty. -/
def truthyStr (s : Option String) : Bool :=
  match s with
  | none => false
  | some str => str ≠ ""

def millisPerWeek : Int := 7 * 24 * 60 * 60 * 1000

def millisPer30Days : Int := 30 * 24 * 60 * 60 * 1000

/-! ### getFeed (feed.ts style handler in part_000) -/

structure AuthorInfo where
  id : Nat
  name : String
  username : Option String
  imageUrl : Option String
deriving DecidableEq, Repr

structure PostWithAuthor where
  post : Post
  author : Option AuthorInfo
deriving DecidableEq, Repr

structure FeedResponse where
  posts : List PostWithAuthor
  hasMore : Bool
deriving DecidableEq, Repr

/-- Projection of a user row to the denormalized author record attached to
feed and trending results. -/
def mkAuthorInfo (u : User) : AuthorInfo :=
  { id := u.id, name := u.name, username := u.username, imageUrl := u.imageUrl }

/-- Embedding of `getFeed`: take `limit + 1` published posts in descending
store order, compute `hasMore`, truncate, attach authors, and drop posts
whose author cannot be resolved. -/
def getFeed (db : DB) (limitArg : Option Nat) : FeedResponse :=
  let limit := defLimit limitArg
  let allPosts := ((db.posts.filter (fun p => p.status == PostStatus.published)).reverse).take (limit + 1)
  let hasMore := allPosts.length > limit
  let feedPosts := if hasMore then allPosts.take limit else allPosts
  let postsWithAuthors := feedPosts.map (fun p =>
    { post := p, author := (getUser db p.authorId).map mkAuthorInfo : PostWithAuthor })
  { posts := postsWithAuthors.filter (fun pw => pw.author ≠ none), hasMore := hasMore }

/-! ### getTrendingPosts -/

structure ScoredPost where
  post : Post
  trendingScore : Int
deriving DecidableEq, Repr

structure TrendingPost where
  post : Post
  trendingScore : Int
  author : Option AuthorInfo
deriving DecidableEq, Repr

/-- Candidate predicate of `getTrendingPosts`: published, with a
`publishedAt` within the trailing 7 days (a missing `publishedAt`
compares below every number in the store, so `gte` rejects it). -/
def trendingCandidate (now : Int) (p : Post) : Bool :=
  p.status == PostStatus.published &&
    (match p.publishedAt with
     | some t => now - millisPerWeek ≤ t
     | none => false)

/-- The total preorder realized by the JavaScript comparator
`(a, b) => b.trendingScore - a.trendingScore`: scores descending. -/
def trendGE (a b : ScoredPost) : Prop :=
  b.trendingScore ≤ a.trendingScore

instance : DecidableRel trendGE :=
  fun a b => inferInstanceAs (Decidable (b.trendingScore ≤ a.trendingScore))

instance : IsTotal ScoredPost trendGE :=
  ⟨fun a b => le_total b.trendingScore a.trendingScore⟩

instance : IsTrans ScoredPost trendGE :=
  ⟨fun _ _ _ h1 h2 => le_trans h2 h1⟩

/-- Embedding of `getTrendingPosts`: filter the 7-day window of published
posts, score each with `viewCount + likeCount * 3`, sort descending by
score, truncate to the limit, attach authors and drop dangling ones. -/
def getTrendingPosts (db : DB) (now : Int) (limitArg : Option Nat) : List TrendingPost :=
  let limit := defLimit limitArg
  let recentPosts := db.posts.filter (trendingCandidate now)
  let scored := recentPosts.map (fun p =>
    { post := p, trendingScore := p.viewCount + p.likeCount * 3 : ScoredPost })
  let sortedPosts := (List.insertionSort trendGE scored).take limit
  let postsWithAuthors := sortedPosts.map (fun sp =>
    { post := sp.post, trendingScore := sp.trendingScore,
      author := (getUser db sp.post.authorId).map mkAuthorInfo : TrendingPost })
  postsWithAuthors.filter (fun tp => tp.author ≠ none)

/-! ### getSuggestedUsers -/

structure RecentPost where
  id : Nat
  title : String
  viewCount : Int
  likeCount : Int
deriving DecidableEq, Repr

structure SuggestedUser where
  id : Nat
  name : String
  username : Option String
  imageUrl : Option String
  followerCount : Nat
  postCount : Nat
  engagementScore : Int
  lastPostAt : Option Int
  recentPosts : List RecentPost
deriving DecidableEq, Repr

/-- JavaScript `posts[0].publishedAt || null`: an absent or zero
`publishedAt` collapses to null. -/
def truthyTime (t : Option Int) : Option Int :=
  match t with
  | none => none
  | some x => if x == 0 then none else some x

/-- JavaScript `lastPostAt || 0`. -/
def lastOr0 (t : Option Int) : Int :=
  match t with
  | none => 0
  | some x => x

/-- Per-candidate projection computed inside `getSuggestedUsers`: up to 5
most recent published posts, all followers, and the engagement score
`totalViews + totalLikes * 5 + followerCount * 10` over those posts. -/
def mkSuggestion (db : DB) (u : User) : SuggestedUser :=
  let posts := ((db.posts.filter (fun p => p.authorId == u.id && p.status == PostStatus.published)).reverse).take 5
  let followers := db.follows.filter (fun f => f.followingId == u.id)
  let totalViews := posts.foldl (fun sum p => sum + p.viewCount) 0
  let totalLikes := posts.foldl (fun sum p => sum + p.likeCount) 0
  let engagementScore := totalViews + totalLikes * 5 + (followers.length : Int) * 10
  { id := u.id, name := u.name, username := u.username, imageUrl := u.imageUrl,
    followerCount := followers.length, postCount := posts.length,
    engagementScore := engagementScore,
    lastPostAt := match posts with | [] => none | p :: _ => truthyTime p.publishedAt,
    recentPosts := (posts.take 2).map (fun p =>
      { id := p.id, title := p.title, viewCount := p.viewCount, likeCount := p.likeCount : RecentPost }) }

/-- The recency test of the suggested-users comparator:
`(lastPostAt || 0) > Date.now() - 7 days`. -/
def isRecentSugg (now : Int) (s : SuggestedUser) : Bool :=
  decide (now - millisPerWeek < lastOr0 s.lastPostAt)

/-- The total preorder realized by the suggested-users comparator:
recent bucket first, then engagement score descending. -/
def suggLe (now : Int) (a b : SuggestedUser) : Prop :=
  (isRecentSugg now b = true → isRecentSugg now a = true) ∧
    (isRecentSugg now a = isRecentSugg now b → b.engagementScore ≤ a.engagementScore)

instance (now : Int) : DecidableRel (suggLe now) := by
  intro a b
  unfold suggLe
  infer_instance

instance (now : Int) : IsTotal SuggestedUser (suggLe now) := by
  constructor
  intro a b
  unfold suggLe
  cases ha : isRecentSugg now a <;> cases hb : isRecentSugg now b <;>
    simp [ha, hb] <;>
    exact le_total b.engagementScore a.engagementScore

instance (now : Int) : IsTrans SuggestedUser (suggLe now) := by
  constructor
  intro a b c hab hbc
  obtain ⟨hab1, hab2⟩ := hab
  obtain ⟨hbc1, hbc2⟩ := hbc
  refine ⟨fun hc => hab1 (hbc1 hc), fun hac => ?_⟩
  cases ha : isRecentSugg now a
  · cases hb : isRecentSugg now b
    · exact le_trans (hbc2 (hb.trans (ha.symm.trans hac))) (hab2 (ha.trans hb.symm))
    · have h2 := hab1 hb
      rw [ha] at h2
      exact absurd h2 Bool.false_ne_true
  · have hc : isRecentSugg now c = true := hac.symm.trans ha
    have hb : isRecentSugg now b = true := hbc1 hc
    exact le_trans (hbc2 (hb.trans hc.symm)) (hab2 (ha.trans hb.symm))

/-- Embedding of `getSuggestedUsers`: resolve the caller, collect the ids
it already follows, build a suggestion for every other user with a
truthy username, drop candidates without posts, sort by the
recency-bucket-then-score comparator, and truncate. -/
def getSuggestedUsers (db : DB) (identity : Option String) (now : Int) (limitArg : Option Nat) :
    Except String (List SuggestedUser) := do
  let limit := defLimit limitArg
  let currentUser : Option User ←
    match identity with
    | none => pure none
    | some tok => uniqueFilter db.users (fun u => u.tokenIdentifier == tok)
  let followedUserIds : List Nat :=
    match currentUser with
    | none => []
    | some cu => (db.follows.filter (fun f => f.followerId == cu.id)).map (fun f => f.followingId)
  let allUsers := db.users.filter (fun u =>
    match currentUser with
    | some cu => u.id != cu.id
    | none => true)
  let suggestions := (allUsers.filter (fun u =>
    !(followedUserIds.contains u.id) && truthyStr u.username)).map (mkSuggestion db)
  let ranked := (List.insertionSort (suggLe now)
    (suggestions.filter (fun s => decide (s.postCount > 0)))).take limit
  pure ranked

/-! ### toggleLike and hasUserLiked -/

structure ToggleLikeResponse where
  liked : Bool
  likeCount : Int
deriving DecidableEq, Repr

/-- Embedding of `toggleLike`: check the post is published, resolve the
user from the explicit argument or the caller identity, look for an
existing like (skipped entirely when no user resolved), then delete and
decrement (floored at 0) or insert and increment. Returns the new store
state together with the response record. -/
def toggleLike (db : DB) (identity : Option String) (now : Int) (postId : Nat) (argUserId : Option Nat) :
    Except String (DB × ToggleLikeResponse) := do
  let post ←
    match getPost db postId with
    | none => Except.error "Post not found or not published"
    | some p =>
      if p.status == PostStatus.published then pure p
      else Except.error "Post not found or not published"
  let userId : Option Nat ←
    match argUserId with
    | some uid => pure (some uid)
    | none =>
      match identity with
      | none => pure none
      | some tok => do
        let u ← uniqueFilter db.users (fun x => x.tokenIdentifier == tok)
        pure (u.map (fun x => x.id))
  let existingLike : Option Like ←
    match userId with
    | none => pure none
    | some uid => uniqueFilter db.likes (fun l => l.postId == postId && l.userId == some uid)
  match existingLike with
  | some l =>
    let newCount := max 0 (post.likeCount - 1)
    let db2 : DB := { db with likes := db.likes.filter (fun x => x.id != l.id),
                              posts := patchById db.posts postId (fun p => { p with likeCount := newCount }) }
    pure (db2, { liked := false, likeCount := newCount })
  | none =>
    let newLike : Like := { id := db.nextId, postId := postId, userId := userId, createdAt := now }
    let db2 : DB := { db with likes := db.likes ++ [newLike],
                              nextId := db.nextId + 1,
                              posts := patchById db.posts postId (fun p => { p with likeCount := post.likeCount + 1 }) }
    pure (db2, { liked := true, likeCount := post.likeCount + 1 })

/-- Shared tail of `hasUserLiked`: the unique lookup of a like by
(post, user) and the `!!like` conversion. -/
def checkUserLike (db : DB) (postId : Nat) (uid : Nat) : Except String Bool := do
  let like ← uniqueFilter db.likes (fun l => l.postId == postId && l.userId == some uid)
  pure like.isSome

/-- Embedding of `hasUserLiked`: resolve the user from the argument or the
caller identity, returning false early when neither resolves. -/
def hasUserLiked (db : DB) (identity : Option String) (postId : Nat) (argUserId : Option Nat) :
    Except String Bool :=
  match argUserId with
  | some uid => checkUserLike db postId uid
  | none =>
    match identity with
    | none => Except.ok false
    | some tok => do
      let u ← uniqueFilter db.users (fun x => x.tokenIdentifier == tok)
      match u with
      | none => pure false
      | some user => checkUserLike db postId user.id

/-! ### getAnalytics -/

structure AnalyticsResponse where
  totalViews : Int
  totalLikes : Int
  totalComments : Nat
  totalFollowers : Nat
  viewsGrowth : Rat
  likesGrowth : Rat
  commentsGrowth : Rat
  followersGrowth : Rat
deriving DecidableEq, Repr

/-- JavaScript `Math.round(x * 10) / 10`: round half toward positive
infinity, which is exactly what `round` computes on rationals. -/
def round1 (x : Rat) : Rat :=
  ((round (x * 10) : Int) : Rat) / 10

/-- Embedding of `getAnalytics`: totals over the owned posts, an
N-sequential comment count, the 30-day recent partition, the guarded
growth percentages rounded to one decimal, and the placeholder
constants 15 and 12. Returns `ok none` for an unauthenticated caller or
a missing user record. -/
def getAnalytics (db : DB) (identity : Option String) (now : Int) :
    Except String (Option AnalyticsResponse) := do
  match identity with
  | none => pure none
  | some tok =>
    let user? ← uniqueFilter db.users (fun u => u.tokenIdentifier == tok)
    match user? with
    | none => pure none
    | some user =>
      let posts := db.posts.filter (fun p => p.authorId == user.id)
      let followersCount := db.follows.filter (fun f => f.followingId == user.id)
      let totalViews : Int := posts.foldl (fun sum p => sum + p.viewCount) 0
      let totalLikes : Int := posts.foldl (fun sum p => sum + p.likeCount) 0
      let postIds := posts.map (fun p => p.id)
      let totalComments := postIds.foldl (fun acc pid =>
        acc + (db.comments.filter (fun c => c.postId == pid && c.status == "approved")).length) 0
      let thirtyDaysAgo := now - millisPer30Days
      let recentPosts := posts.filter (fun p => thirtyDaysAgo < p.createdAt)
      let recentViews : Int := recentPosts.foldl (fun sum p => sum + p.viewCount) 0
      let recentLikes : Int := recentPosts.foldl (fun sum p => sum + p.likeCount) 0
      let viewsGrowth : Rat := if 0 < totalViews then ((recentViews : Rat) / (totalViews : Rat)) * 100 else 0
      let likesGrowth : Rat := if 0 < totalLikes then ((recentLikes : Rat) / (totalLikes : Rat)) * 100 else 0
      let commentsGrowth : Rat := if 0 < totalComments then 15 else 0
      let followersGrowth : Rat := if 0 < followersCount.length then 12 else 0
      pure (some { totalViews := totalViews, totalLikes := totalLikes,
                   totalComments := totalComments, totalFollowers := followersCount.length,
                   viewsGrowth := round1 viewsGrowth, likesGrowth := round1 likesGrowth,
                   commentsGrowth := commentsGrowth, followersGrowth := followersGrowth })

/-! ### getRecentActivity -/

inductive ActivityType
  | like
  | comment
  | follow
deriving DecidableEq, Repr

/-- One item of the unified activity timeline; the `kind` field embeds
the `type` field of the source record. -/
structure ActivityItem where
  kind : ActivityType
  user : String
  post : Option String
  time : Int
deriving DecidableEq, Repr

/-- The total preorder realized by the activity comparator
`(a, b) => b.time - a.time`: times descending. -/
def timeGE (a b : ActivityItem) : Prop :=
  b.time ≤ a.time

instance : DecidableRel timeGE :=
  fun a b => inferInstanceAs (Decidable (b.time ≤ a.time))

instance : IsTotal ActivityItem timeGE :=
  ⟨fun a b => le_total b.time a.time⟩

instance : IsTrans ActivityItem timeGE :=
  ⟨fun _ _ _ h1 h2 => le_trans h2 h1⟩

/-- Embedding of `getRecentActivity`: per-post 5 most recent likes with a
resolvable liker, per-post 5 most recent approved comments, the 5 most
recent follow edges with a resolvable follower, all merged, sorted by
time descending and truncated. -/
def getRecentActivity (db : DB) (identity : Option String) (limitArg : Option Nat) :
    Except String (List ActivityItem) := do
  match identity with
  | none => pure []
  | some tok =>
    let user? ← uniqueFilter db.users (fun u => u.tokenIdentifier == tok)
    match user? with
    | none => pure []
    | some user =>
      let posts := db.posts.filter (fun p => p.authorId == user.id)
      let postIds := posts.map (fun p => p.id)
      let likeActivities := postIds.foldl (fun acc pid =>
        let likes := ((db.likes.filter (fun l => l.postId == pid)).reverse).take 5
        likes.foldl (fun acc2 like =>
          match like.userId with
          | none => acc2
          | some uid =>
            match getUser db uid, posts.find? (fun p => p.id == pid) with
            | some likeUser, some post =>
              acc2 ++ [{ kind := ActivityType.like, user := likeUser.name,
                         post := some post.title, time := like.createdAt : ActivityItem }]
            | _, _ => acc2) acc) []
      let commentActivities := postIds.foldl (fun acc pid =>
        let comments := ((db.comments.filter (fun c => c.postId == pid && c.status == "approved")).reverse).take 5
        comments.foldl (fun acc2 comment =>
          match posts.find? (fun p => p.id == pid) with
          | some post =>
            acc2 ++ [{ kind := ActivityType.comment, user := comment.authorName,
                       post := some post.title, time := comment.createdAt : ActivityItem }]
          | none => acc2) acc) []
      let recentFollowers := ((db.follows.filter (fun f => f.followingId == user.id)).reverse).take 5
      let followActivities := recentFollowers.foldl (fun acc follow =>
        match getUser db follow.followerId with
        | some follower =>
          acc ++ [{ kind := ActivityType.follow, user := follower.name,
                    post := none, time := follow.createdAt : ActivityItem }]
        | none => acc) []
      let activities := likeActivities ++ commentActivities ++ followActivities
      pure ((List.insertionSort timeGE activities).take (defLimit limitArg))

/-! ### getPostsWithAnalytics -/

structure PostWithCommentCount where
  post : Post
  commentCount : Nat
deriving DecidableEq, Repr

/-- JavaScript `n || d` over an optional numeric argument with default
`d` (0 is falsy and falls back to the default). -/
def jsOrNat (n : Option Nat) (d : Nat) : Nat :=
  match n with
  | none => d
  | some k => if k == 0 then d else k

/-- Embedding of `getPostsWithAnalytics`: the `limit || 5` most recent
posts of the caller in descending store order, each with a fresh
approved-comment count. -/
def getPostsWithAnalytics (db : DB) (identity : Option String) (limitArg : Option Nat) :
    Except String (List PostWithCommentCount) := do
  match identity with
  | none => pure []
  | some tok =>
    let user? ← uniqueFilter db.users (fun u => u.tokenIdentifier == tok)
    match user? with
    | none => pure []
    | some user =>
      let posts := ((db.posts.filter (fun p => p.authorId == user.id)).reverse).take (jsOrNat limitArg 5)
      pure (posts.map (fun p =>
        { post := p,
          commentCount := (db.comments.filter (fun c => c.postId == p.id && c.status == "approved")).length }))

/-! ### getDailyViews -/

/-- One entry of the 30-day chart. The source also carries `day` and
`fullDate`, which are locale renderings of the same `date` key and are
omitted from the embedding. -/
structure DailyViewData where
  date : Int
  views : Int
deriving DecidableEq, Repr

/-- Lookup in the `viewsByDate` object, embedded as an association list. -/
def vbdGet (m : List (Int × Int)) (d : Int) : Option Int :=
  (m.find? (fun e => e.fst == d)).map (fun e => e.snd)

/-- Assignment `viewsByDate[d] = v`. -/
def vbdSet (m : List (Int × Int)) (d v : Int) : List (Int × Int) :=
  match m with
  | [] => [(d, v)]
  | e :: rest => if e.fst == d then (d, v) :: rest else e :: vbdSet rest d v

/-- One iteration of the aggregation loop: `if (viewsByDate[stat.date])`
adds to the stored value, otherwise assigns it (a stored 0 is falsy and
takes the assignment branch, which computes the same sum). -/
def vbdStep (m : List (Int × Int)) (s : DailyStat) : List (Int × Int) :=
  if (vbdGet m s.date).getD 0 ≠ 0 then vbdSet m s.date ((vbdGet m s.date).getD 0 + s.views)
  else vbdSet m s.date s.views

/-- Embedding of `getDailyViews`: strict authentication, the 30-day
skeleton from 29 days ago up to today, the dailyStats rows of the
posts of the caller, aggregation by date and the merge with `|| 0`. -/
def getDailyViews (db : DB) (identity : Option String) (today : Int) :
    Except String (List DailyViewData) := do
  match identity with
  | none => Except.error "Not authenticated"
  | some tok =>
    let user? ← uniqueFilter db.users (fun u => u.tokenIdentifier == tok)
    match user? with
    | none => Except.error "User not found"
    | some user =>
      let userPosts := db.posts.filter (fun p => p.authorId == user.id)
      let postIds := userPosts.map (fun p => p.id)
      let days := (List.range 30).map (fun k =>
        { date := today - ((29 - k : Nat) : Int), views := 0 : DailyViewData })
      let dailyStats := db.dailyStats.filter (fun s => postIds.contains s.postId)
      let viewsByDate := dailyStats.foldl vbdStep []
      pure (days.map (fun day => { day with views := (vbdGet viewsByDate day.date).getD 0 }))

/-! ### create and update mutations on posts -/

structure CreateArgs where
  title : String
  content : String
  status : PostStatus
  tags : Option (List String)
  category : Option String
  featuredImage : Option String
  scheduledFor : Option Int
deriving DecidableEq, Repr

structure UpdateArgs where
  title : Option String
  content : Option String
  status : Option PostStatus
  tags : Option (List String)
  category : Option String
  featuredImage : Option String
  scheduledFor : Option Int
deriving DecidableEq, Repr

/-- Embedding of the `create` mutation: reuse the unique existing draft
of the author (publishing it when the requested status is published,
updating it otherwise), or insert a fresh post whose `publishedAt` is
set exactly when it is created already published. -/
def createPost (db : DB) (identity : Option String) (args : CreateArgs) (now : Int) :
    Except String (DB × Nat) := do
  match identity with
  | none => Except.error "Not authenticated"
  | some tok =>
    let user? ← uniqueFilter db.users (fun u => u.tokenIdentifier == tok)
    match user? with
    | none => Except.error "User not found"
    | some user =>
      let existingDraft ← uniqueFilter db.posts (fun p => p.authorId == user.id && p.status == PostStatus.draft)
      match args.status, existingDraft with
      | PostStatus.published, some d =>
        let posts2 := patchById db.posts d.id (fun p =>
          { p with title := args.title, content := args.content,
                   status := PostStatus.published, tags := args.tags.getD [],
                   category := args.category, featuredImage := args.featuredImage,
                   updatedAt := now, publishedAt := some now, scheduledFor := args.scheduledFor })
        pure ({ db with posts := posts2 }, d.id)
      | PostStatus.draft, some d =>
        let posts2 := patchById db.posts d.id (fun p =>
          { p with title := args.title, content := args.content,
                   tags := args.tags.getD [], category := args.category,
                   featuredImage := args.featuredImage, updatedAt := now,
                   scheduledFor := args.scheduledFor })
        pure ({ db with posts := posts2 }, d.id)
      | st, none =>
        let newPost : Post :=
          { id := db.nextId, authorId := user.id, title := args.title,
            content := args.content, status := st, tags := args.tags.getD [],
            category := args.category, featuredImage := args.featuredImage,
            createdAt := now, updatedAt := now,
            publishedAt := if st == PostStatus.published then some now else none,
            scheduledFor := args.scheduledFor, viewCount := 0, likeCount := 0 }
        pure ({ db with posts := db.posts ++ [newPost], nextId := db.nextId + 1 }, db.nextId)

/-- The field-by-field `updateData` assembly of the `update` mutation,
without the status handling: each provided optional argument overwrites
its field, and `updatedAt` is always set. -/
def applyFieldPatches (post : Post) (args : UpdateArgs) (now : Int) : Post :=
  let p1 := { post with updatedAt := now }
  let p2 := match args.title with | some t => { p1 with title := t } | none => p1
  let p3 := match args.content with | some c => { p2 with content := c } | none => p2
  let p4 := match args.tags with | some t => { p3 with tags := t } | none => p3
  let p5 := match args.category with | some c => { p4 with category := some c } | none => p4
  let p6 := match args.featuredImage with | some f2 => { p5 with featuredImage := some f2 } | none => p5
  match args.scheduledFor with | some sch => { p6 with scheduledFor := some sch } | none => p6

/-- The full `updateData` patch: the provided fields, then the status
change, with `publishedAt` assigned exactly on the draft-to-published
transition. -/
def applyUpdateData (post : Post) (args : UpdateArgs) (now : Int) : Post :=
  let p7 := applyFieldPatches post args now
  match args.status with
  | none => p7
  | some st =>
    if st == PostStatus.published && post.status == PostStatus.draft then
      { p7 with status := st, publishedAt := some now }
    else
      { p7 with status := st }

/-- Embedding of the `update` mutation: build `updateData` from the
provided optional fields, setting `publishedAt` only on the
draft-to-published transition, and patch the row. -/
def updatePost (db : DB) (identity : Option String) (id : Nat) (args : UpdateArgs) (now : Int) :
    Except String (DB × Nat) := do
  match identity with
  | none => Except.error "Not authenticated"
  | some tok =>
    let user? ← uniqueFilter db.users (fun u => u.tokenIdentifier == tok)
    match user? with
    | none => Except.error "User not found"
    | some user =>
      match getPost db id with
      | none => Except.error "Post not found"
      | some post =>
        if post.authorId ≠ user.id then Except.error "Not authorized"
        else
          pure ({ db with posts := patchById db.posts id (fun _ => applyUpdateData post args now) }, id)

/-- One mutation of the post-lifecycle state machine used for the
`publishedAt` invariant: a `create` or an `update` issued by a caller
identified by its token. -/
inductive PostOp
  | createOp (caller : String) (args : CreateArgs) (now : Int)
  | updateOp (caller : String) (id : Nat) (args : UpdateArgs) (now : Int)
deriving DecidableEq, Repr

/-- Run one mutation against the store; a thrown error rolls the
transaction back, leaving the state unchanged. -/
def applyOp (db : DB) (op : PostOp) : DB :=
  match op with
  | PostOp.createOp caller args now =>
    match createPost db (some caller) args now with
    | Except.ok r => r.fst
    | Except.error _ => db
  | PostOp.updateOp caller id args now =>
    match updatePost db (some caller) id args now with
    | Except.ok r => r.fst
    | Except.error _ => db

/-- Run a sequence of mutations. -/
def applyOps (db : DB) (ops : List PostOp) : DB :=
  ops.foldl applyOp db

/-- The `publishedAt` field of the post with a given id, if present. -/
def postPublishedAt (db : DB) (id : Nat) : Option Int :=
  (getPost db id).bind (fun p => p.publishedAt)

/-- The status of the post with a given id, if present. -/
def postStatusOf (db : DB) (id : Nat) : Option PostStatus :=
  (getPost db id).map (fun p => p.status)

/-! ### Spec-side definitions (written from the wording of the claims,
to be compared with the handler output) -/

/-- Trending score as the spec words it: `views + likes * 3`. -/
def specTrendingScore (p : Post) : Int :=
  p.viewCount + p.likeCount * 3

/-- The published posts of the store, used by the feed pagination claim. -/
def publishedPosts (db : DB) : List Post :=
  db.posts.filter (fun p => p.status == PostStatus.published)

/-- Sum, as the daily-views claim words it, of the views of all
dailyStats rows of the posts of a given author that carry a given date. -/
def specDailySum (db : DB) (uid : Nat) (d : Int) : Int :=
  ((db.dailyStats.filter (fun s =>
    s.date == d && (db.posts.filter (fun p => p.authorId == uid)).any (fun p => p.id == s.postId))).map
      (fun s => s.views)).sum

/-- Total views of an author, as the analytics claim words it. -/
def specTotalViews (db : DB) (uid : Nat) : Int :=
  ((db.posts.filter (fun p => p.authorId == uid)).map (fun p => p.viewCount)).sum

/-- Total likes of an author, as the analytics claim words it. -/
def specTotalLikes (db : DB) (uid : Nat) : Int :=
  ((db.posts.filter (fun p => p.authorId == uid)).map (fun p => p.likeCount)).sum

/-- Views over the posts the author created within the last 30 days. -/
def specRecentViews (db : DB) (uid : Nat) (now : Int) : Int :=
  ((db.posts.filter (fun p => p.authorId == uid && now - millisPer30Days < p.createdAt)).map
    (fun p => p.viewCount)).sum

/-- Likes over the posts the author created within the last 30 days. -/
def specRecentLikes (db : DB) (uid : Nat) (now : Int) : Int :=
  ((db.posts.filter (fun p => p.authorId == uid && now - millisPer30Days < p.createdAt)).map
    (fun p => p.likeCount)).sum

/-- Views growth as the claim words it: `(recentViews / totalViews) * 100`
rounded to one decimal, and 0 when `totalViews` is 0. -/
def specViewsGrowth (db : DB) (uid : Nat) (now : Int) : Rat :=
  if specTotalViews db uid = 0 then 0
  else round1 (((specRecentViews db uid now : Rat) / (specTotalViews db uid : Rat)) * 100)

/-- Likes growth, analogously. -/
def specLikesGrowth (db : DB) (uid : Nat) (now : Int) : Rat :=
  if specTotalLikes db uid = 0 then 0
  else round1 (((specRecentLikes db uid now : Rat) / (specTotalLikes db uid : Rat)) * 100)

/-- Approved comment count over all posts of an author. -/
def specTotalComments (db : DB) (uid : Nat) : Nat :=
  ((db.posts.filter (fun p => p.authorId == uid)).map (fun p =>
    (db.comments.filter (fun c => c.postId == p.id && c.status == "approved")).length)).sum

/-- Follower count of a user. -/
def specFollowerCount (db : DB) (uid : Nat) : Nat :=
  (db.follows.filter (fun f => f.followingId == uid)).length

/-- The up-to-5 most recent published posts of a candidate, in
descending store order, as the suggested-users claim words it. -/
def top5Published (db : DB) (uid : Nat) : List Post :=
  ((db.posts.filter (fun p => p.authorId == uid && p.status == PostStatus.published)).reverse).take 5

/-- Engagement score as the claim words it:
`totalViews + totalLikes * 5 + followerCount * 10`, where the totals run
over only the up-to-5 most recent published posts. -/
def specEngagementScore (db : DB) (uid : Nat) : Int :=
  ((top5Published db uid).map (fun p => p.viewCount)).sum +
    ((top5Published db uid).map (fun p => p.likeCount)).sum * 5 +
    (specFollowerCount db uid : Int) * 10

/-! ### Concrete stores used by witnesses and counterexamples -/

def u1 : User :=
  { id := 1, tokenIdentifier := "t1", name := "alice", username := some "alice",
    email := "", imageUrl := none, createdAt := 0, lastActiveAt := 0 }

def u2 : User :=
  { id := 2, tokenIdentifier := "t2", name := "bob", username := some "bob",
    email := "", imageUrl := none, createdAt := 0, lastActiveAt := 0 }

def basePost : Post :=
  { id := 0, authorId := 1, title := "p", content := "", status := PostStatus.published,
    tags := [], category := none, featuredImage := none, createdAt := 0, updatedAt := 0,
    publishedAt := some 1, scheduledFor := none, viewCount := 0, likeCount := 0 }

def emptyDB : DB :=
  { users := [], posts := [], likes := [], comments := [], follows := [],
    dailyStats := [], nextId := 0 }

/-! ### C7: unauthenticated behavior -/

/-- C7: for an unauthenticated caller, `getDailyViews` throws, while
`getAnalytics` returns null, `getRecentActivity` and
`getPostsWithAnalytics` return an empty list, and `hasUserLiked` called
without a userId argument returns false; none of the permissive
operations throw. -/
theorem unauthenticated_behavior (db : DB) (today now : Int) (lim : Option Nat) (pid : Nat) :
    getDailyViews db none today = Except.error "Not authenticated" ∧
    getAnalytics db none now = Except.ok none ∧
    getRecentActivity db none lim = Except.ok [] ∧
    getPostsWithAnalytics db none lim = Except.ok [] ∧
    hasUserLiked db none pid none = Except.ok false :=
  ⟨rfl, rfl, rfl, rfl, rfl⟩

/-! ### C4: feed pagination -/

/-- A positive explicit limit survives the `|| 10` defaulting. -/
theorem defLimit_pos {L : Nat} (hL : 1 ≤ L) : defLimit (some L) = L := by
  match L, hL with
  | Nat.succ n, _ => rfl

/-- Normal form of `getFeed` for a positive explicit limit: the returned
posts are the first `L` published posts in descending store order with
authors attached and dangling authors dropped, and `hasMore` holds
exactly when more than `L` published posts exist. -/
theorem getFeed_normal (db : DB) (L : Nat) (hL : 1 ≤ L) :
    getFeed db (some L) =
      { posts := (((publishedPosts db).reverse.take L).map (fun p =>
          { post := p, author := (getUser db p.authorId).map mkAuthorInfo : PostWithAuthor })).filter
            (fun pw => pw.author ≠ none),
        hasMore := decide (L < (publishedPosts db).length) } := by
  unfold getFeed publishedPosts
  rw [defLimit_pos hL]
  have h1 : (((db.posts.filter (fun p => p.status == PostStatus.published)).reverse.take (L+1)).length > L)
      ↔ (L < (db.posts.filter (fun p => p.status == PostStatus.published)).length) := by
    rw [List.length_take, List.length_reverse]
    omega
  have h2 : (if ((db.posts.filter (fun p => p.status == PostStatus.published)).reverse.take (L+1)).length > L
        then ((db.posts.filter (fun p => p.status == PostStatus.published)).reverse.take (L+1)).take L
        else (db.posts.filter (fun p => p.status == PostStatus.published)).reverse.take (L+1))
      = (db.posts.filter (fun p => p.status == PostStatus.published)).reverse.take L := by
    by_cases h : ((db.posts.filter (fun p => p.status == PostStatus.published)).reverse.take (L+1)).length > L
    · rw [if_pos h, List.take_take]
      congr 1
      omega
    · rw [if_neg h]
      have hle : ((db.posts.filter (fun p => p.status == PostStatus.published)).reverse.take (L+1)).length ≤ L :=
        Nat.not_lt.mp h
      rw [List.length_take, List.length_reverse] at hle
      have hlen : (db.posts.filter (fun p => p.status == PostStatus.published)).reverse.length ≤ L := by
        rw [List.length_reverse]
        omega
      rw [List.take_of_length_le (Nat.le_trans hlen (Nat.le_succ L)),
          List.take_of_length_le hlen]
  simp only [h2, FeedResponse.mk.injEq]
  refine ⟨trivial, ?_⟩
  rw [decide_eq_decide]
  exact h1

/-- C4 (amended): for every limit L with 1 ≤ L (a limit of 0 is falsy in
the source and falls back to the default 10), `getFeed` fetches L+1
published posts in descending store order, returns
`hasMore = (fetched count > L)` (equivalently: more than L published
posts exist), and truncates the returned list to L; when every author
resolves, exactly `min (number of published posts) L` posts return. -/
theorem getFeed_pagination_boundary (db : DB) (L : Nat) (hL : 1 ≤ L) :
    ((getFeed db (some L)).hasMore = true ↔ L < (publishedPosts db).length) ∧
    (getFeed db (some L)).posts.length ≤ L ∧
    ((∀ p ∈ publishedPosts db, getUser db p.authorId ≠ none) →
      (getFeed db (some L)).posts.length = min (publishedPosts db).length L) := by
  rw [getFeed_normal db L hL]
  refine ⟨by simp, ?_, ?_⟩
  · refine le_trans (List.length_filter_le _ _) ?_
    rw [List.length_map, List.length_take, List.length_reverse]
    omega
  · intro hall
    have hkeep : ∀ pw ∈ ((publishedPosts db).reverse.take L).map (fun p =>
        { post := p, author := (getUser db p.authorId).map mkAuthorInfo : PostWithAuthor }),
        pw.author ≠ none := by
      intro pw hpw
      obtain ⟨p, hp, rfl⟩ := List.mem_map.mp hpw
      have hpP : p ∈ publishedPosts db := List.mem_reverse.mp (List.mem_of_mem_take hp)
      have hu := hall p hpP
      cases h : getUser db p.authorId with
      | none => exact absurd h hu
      | some v => simp [h]
    rw [List.filter_length_eq_length.mpr (fun a ha => decide_eq_true (hkeep a ha))]
    rw [List.length_map, List.length_take, List.length_reverse, Nat.min_comm]

def feedDB1 : DB :=
  { emptyDB with users := [u1], posts := [{ basePost with id := 2 }], nextId := 3 }

def feedDB11 : DB :=
  { emptyDB with
    users := [u1]
    posts := (List.range 11).map (fun k => { basePost with id := k + 2 })
    nextId := 20 }

def feedDB10 : DB :=
  { emptyDB with
    users := [u1]
    posts := (List.range 10).map (fun k => { basePost with id := k + 2 })
    nextId := 20 }

/-- C4 counterexample: against a store holding exactly one published post
with a resolvable author, `getFeed` with the explicit limit L = 0
returns one post and `hasMore = false`, while the claim, read at L = 0,
demands a list truncated to 0 posts and
`hasMore = (fetched count 1 > 0) = true`; the source treats the falsy
limit 0 as the default 10. -/
theorem getFeed_limit_zero_counterexample :
    (getFeed feedDB1 (some 0)).hasMore = false ∧ (getFeed feedDB1 (some 0)).posts.length = 1 := by
  decide

/-- Witness for C4: the amended theorem applied at limit 10 against a
store of exactly 11 published posts, together with the two concrete
boundary instances of the claim (11 posts: hasMore and 10 posts
returned; 10 posts: no hasMore and 10 posts returned). -/
theorem getFeed_pagination_boundary_witness :
    (1 ≤ 10 ∧
      (((getFeed feedDB11 (some 10)).hasMore = true ↔ 10 < (publishedPosts feedDB11).length) ∧
        (getFeed feedDB11 (some 10)).posts.length ≤ 10 ∧
        ((∀ p ∈ publishedPosts feedDB11, getUser feedDB11 p.authorId ≠ none) →
          (getFeed feedDB11 (some 10)).posts.length = min (publishedPosts feedDB11).length 10))) ∧
    (getFeed feedDB11 (some 10)).hasMore = true ∧
    (getFeed feedDB11 (some 10)).posts.length = 10 ∧
    (getFeed feedDB10 (some 10)).hasMore = false ∧
    (getFeed feedDB10 (some 10)).posts.length = 10 :=
  ⟨⟨by decide, getFeed_pagination_boundary feedDB11 10 (by decide)⟩,
    by decide, by decide, by decide, by decide⟩

/-! ### C5: daily views completeness -/

/-- Looking up the key just assigned returns the assigned value. -/
theorem vbdGet_vbdSet_self (m : List (Int × Int)) (d v : Int) :
    vbdGet (vbdSet m d v) d = some v := by
  induction m with
  | nil => simp [vbdSet, vbdGet]
  | cons e rest ih =>
    by_cases h : e.fst = d
    · simp [vbdSet, h, vbdGet]
    · simp only [vbdSet, vbdGet] at ih ⊢
      rw [if_neg (by simpa using h)]
      rw [List.find?_cons_of_neg _ (by simpa using h)]
      exact ih

/-- Assigning one key leaves every other key unchanged. -/
theorem vbdGet_vbdSet_ne (m : List (Int × Int)) (d v e : Int) (h : e ≠ d) :
    vbdGet (vbdSet m d v) e = vbdGet m e := by
  have hde : ¬(d = e) := fun hh => h hh.symm
  induction m with
  | nil =>
    simp only [vbdSet, vbdGet]
    rw [List.find?_cons_of_neg _ (by simpa using hde)]
  | cons x rest ih =>
    by_cases hx : x.fst = d
    · simp only [vbdSet, vbdGet]
      rw [if_pos (by simpa using hx)]
      rw [List.find?_cons_of_neg _ (by simpa using hde)]
      rw [List.find?_cons_of_neg _ (by simp only [beq_iff_eq]; exact fun hh => hde (hx.symm.trans hh))]
    · simp only [vbdSet, vbdGet] at ih ⊢
      rw [if_neg (by simpa using hx)]
      by_cases he : x.fst = e
      · rw [List.find?_cons_of_pos _ (by simpa using he),
            List.find?_cons_of_pos _ (by simpa using he)]
      · rw [List.find?_cons_of_neg _ (by simpa using he),
            List.find?_cons_of_neg _ (by simpa using he)]
        exact ih

/-- Both branches of the truthiness test compute the same map update. -/
theorem vbdStep_eq (m : List (Int × Int)) (s : DailyStat) :
    vbdStep m s = vbdSet m s.date ((vbdGet m s.date).getD 0 + s.views) := by
  unfold vbdStep
  by_cases h : (vbdGet m s.date).getD 0 = 0
  · rw [if_neg (by simp [h]), h, zero_add]
  · rw [if_pos h]

/-- The aggregation loop computes, at every key, the sum of the views of
the stats carrying that date. -/
theorem vbdFold_getD (stats : List DailyStat) (m : List (Int × Int)) (d : Int) :
    (vbdGet (stats.foldl vbdStep m) d).getD 0 =
      (vbdGet m d).getD 0 + ((stats.filter (fun s => s.date == d)).map (fun s => s.views)).sum := by
  induction stats generalizing m with
  | nil => simp
  | cons s rest ih =>
    rw [List.foldl_cons, ih, vbdStep_eq]
    by_cases h : s.date = d
    · rw [h, vbdGet_vbdSet_self]
      simp only [Option.getD_some]
      simp [List.filter_cons, h]
      ring
    · rw [vbdGet_vbdSet_ne _ _ _ _ (fun hh => h hh.symm)]
      simp [List.filter_cons, h]

/-- Binding a successful Except value just applies the continuation. -/
theorem except_bind_ok {α β : Type} (a : α) (f : α → Except String β) :
    ((Except.ok a : Except String α) >>= f) = f a := rfl

/-- The `contains` test over the mapped post ids agrees with an any-test
over the posts themselves. -/
theorem contains_map_ids (l : List Post) (b : Nat) :
    (l.map (fun p => p.id)).contains b = l.any (fun p => p.id == b) := by
  induction l with
  | nil => rfl
  | cons p t ih =>
    simp only [List.map_cons, List.contains_cons, List.any_cons, ih]
    rw [Bool.beq_comm]

/-- C5: for an authenticated caller whose token resolves to the user u,
`getDailyViews` returns exactly the 30 entries for the days
today - 29 up to today, in ascending date order, each carrying the sum
of the views of the dailyStats rows of the posts of the caller dated
that day (and hence 0 for days with no matching row). -/
theorem getDailyViews_complete (db : DB) (tok : String) (u : User) (today : Int)
    (hu : uniqueFilter db.users (fun x => x.tokenIdentifier == tok) = Except.ok (some u)) :
    getDailyViews db (some tok) today =
      Except.ok ((List.range 30).map (fun (k : Nat) =>
        { date := today - 29 + (k : Int),
          views := specDailySum db u.id (today - 29 + (k : Int)) : DailyViewData })) := by
  simp only [getDailyViews]
  rw [hu, except_bind_ok]
  refine congrArg Except.ok ?_
  rw [List.map_map]
  refine List.map_congr_left ?_
  intro k hk
  have hk30 : k < 30 := List.mem_range.mp hk
  have hdate : today - ((29 - k : Nat) : Int) = today - 29 + (k : Int) := by omega
  simp only [Function.comp]
  rw [hdate]
  have hmerge : ∀ d : Int,
      (vbdGet ((db.dailyStats.filter (fun s =>
          ((db.posts.filter (fun p => p.authorId == u.id)).map (fun p => p.id)).contains s.postId)).foldl
            vbdStep []) d).getD 0 = specDailySum db u.id d := by
    intro d
    rw [vbdFold_getD]
    have h0 : (vbdGet [] d).getD 0 = 0 := rfl
    rw [h0, zero_add, List.filter_filter]
    unfold specDailySum
    refine congrArg List.sum (congrArg (List.map (fun s : DailyStat => s.views)) ?_)
    refine List.filter_congr ?_
    intro s hs
    rw [contains_map_ids]
  exact congrArg (DailyViewData.mk (today - 29 + (k : Int))) (hmerge (today - 29 + (k : Int)))

def dvDB : DB :=
  { emptyDB with
    users := [u1]
    posts := [{ basePost with id := 2 }]
    dailyStats := [ { id := 10, postId := 2, date := 100, views := 3 },
                    { id := 11, postId := 2, date := 100, views := 4 },
                    { id := 12, postId := 99, date := 100, views := 50 } ]
    nextId := 13 }

/-- Witness for C5: the theorem applied to a concrete store where two
dailyStats rows of the caller share the date of day 100 and a foreign
row is ignored. -/
theorem getDailyViews_complete_witness :
    uniqueFilter dvDB.users (fun x => x.tokenIdentifier == "t1") = Except.ok (some u1) ∧
    getDailyViews dvDB (some "t1") 100 =
      Except.ok ((List.range 30).map (fun (k : Nat) =>
        { date := (100 : Int) - 29 + (k : Int),
          views := specDailySum dvDB u1.id ((100 : Int) - 29 + (k : Int)) : DailyViewData })) :=
  ⟨by decide, getDailyViews_complete dvDB "t1" u1 100 (by decide)⟩

/-! ### C8: analytics growth formulas -/

/-- The accumulating reduce loops of the handlers compute sums. -/
theorem foldl_add_map {α : Type} (f : α → Int) (l : List α) (c : Int) :
    l.foldl (fun sum a => sum + f a) c = c + (l.map f).sum := by
  induction l generalizing c with
  | nil => simp
  | cons a t ih =>
    rw [List.foldl_cons, ih, List.map_cons, List.sum_cons]
    ring

/-- Nat variant of the accumulating reduce loop. -/
theorem foldl_add_map_nat {α : Type} (f : α → Nat) (l : List α) (c : Nat) :
    l.foldl (fun acc a => acc + f a) c = c + (l.map f).sum := by
  induction l generalizing c with
  | nil => simp
  | cons a t ih =>
    rw [List.foldl_cons, ih, List.map_cons, List.sum_cons]
    omega

/-- Rounding the literal 0 to one decimal gives 0. -/
theorem round1_zero : round1 0 = 0 := by
  norm_num [round1]

/-- Total views are nonnegative when every stored counter is. -/
theorem specTotalViews_nonneg (db : DB) (uid : Nat)
    (hnn : ∀ p ∈ db.posts, 0 ≤ p.viewCount ∧ 0 ≤ p.likeCount) :
    0 ≤ specTotalViews db uid := by
  unfold specTotalViews
  refine List.sum_nonneg ?_
  intro x hx
  obtain ⟨p, hp, rfl⟩ := List.mem_map.mp hx
  exact (hnn p (List.mem_filter.mp hp).1).1

/-- Total likes are nonnegative when every stored counter is. -/
theorem specTotalLikes_nonneg (db : DB) (uid : Nat)
    (hnn : ∀ p ∈ db.posts, 0 ≤ p.viewCount ∧ 0 ≤ p.likeCount) :
    0 ≤ specTotalLikes db uid := by
  unfold specTotalLikes
  refine List.sum_nonneg ?_
  intro x hx
  obtain ⟨p, hp, rfl⟩ := List.mem_map.mp hx
  exact (hnn p (List.mem_filter.mp hp).1).2

/-- C8: for an authenticated caller resolving to user u with nonnegative
stored counters, `getAnalytics` returns the growth percentages of the
claim: `(recent / total) * 100` rounded to one decimal and 0 (with no
exception and, in exact rational arithmetic, no NaN) when the total is
0, and the placeholder constants 15 and 12 gated on any activity. -/
theorem getAnalytics_growth (db : DB) (tok : String) (u : User) (now : Int)
    (hu : uniqueFilter db.users (fun x => x.tokenIdentifier == tok) = Except.ok (some u))
    (hnn : ∀ p ∈ db.posts, 0 ≤ p.viewCount ∧ 0 ≤ p.likeCount) :
    ∃ r, getAnalytics db (some tok) now = Except.ok (some r) ∧
      r.viewsGrowth = specViewsGrowth db u.id now ∧
      r.likesGrowth = specLikesGrowth db u.id now ∧
      r.commentsGrowth = (if 0 < specTotalComments db u.id then (15 : Rat) else 0) ∧
      r.followersGrowth = (if 0 < specFollowerCount db u.id then (12 : Rat) else 0) ∧
      r.totalViews = specTotalViews db u.id ∧
      r.totalLikes = specTotalLikes db u.id := by
  have hTV : (db.posts.filter (fun p => p.authorId == u.id)).foldl
      (fun sum p => sum + p.viewCount) 0 = specTotalViews db u.id := by
    rw [foldl_add_map, zero_add]
    rfl
  have hTL : (db.posts.filter (fun p => p.authorId == u.id)).foldl
      (fun sum p => sum + p.likeCount) 0 = specTotalLikes db u.id := by
    rw [foldl_add_map, zero_add]
    rfl
  have hRV : ((db.posts.filter (fun p => p.authorId == u.id)).filter
      (fun p => decide (now - millisPer30Days < p.createdAt))).foldl
      (fun sum p => sum + p.viewCount) 0 = specRecentViews db u.id now := by
    rw [foldl_add_map, zero_add, List.filter_filter]
    unfold specRecentViews
    refine congrArg List.sum (congrArg (List.map (fun p : Post => p.viewCount)) ?_)
    refine List.filter_congr ?_
    intro p hp
    exact Bool.and_comm _ _
  have hRL : ((db.posts.filter (fun p => p.authorId == u.id)).filter
      (fun p => decide (now - millisPer30Days < p.createdAt))).foldl
      (fun sum p => sum + p.likeCount) 0 = specRecentLikes db u.id now := by
    rw [foldl_add_map, zero_add, List.filter_filter]
    unfold specRecentLikes
    refine congrArg List.sum (congrArg (List.map (fun p : Post => p.likeCount)) ?_)
    refine List.filter_congr ?_
    intro p hp
    exact Bool.and_comm _ _
  have hTC : ((db.posts.filter (fun p => p.authorId == u.id)).map (fun p => p.id)).foldl
      (fun acc pid => acc + (db.comments.filter
        (fun c => c.postId == pid && c.status == "approved")).length) 0
      = specTotalComments db u.id := by
    rw [foldl_add_map_nat, zero_add, List.map_map]
    rfl
  simp only [getAnalytics]
  rw [hu, except_bind_ok]
  refine ⟨_, rfl, ?_, ?_, ?_, ?_, ?_, ?_⟩
  · dsimp only
    rw [hTV, hRV]
    by_cases hz : specTotalViews db u.id = 0
    · rw [if_neg (by rw [hz]; exact lt_irrefl 0), round1_zero]
      unfold specViewsGrowth
      rw [if_pos hz]
    · have hpos : 0 < specTotalViews db u.id :=
        lt_of_le_of_ne (specTotalViews_nonneg db u.id hnn) (Ne.symm hz)
      rw [if_pos hpos]
      unfold specViewsGrowth
      rw [if_neg hz]
  · dsimp only
    rw [hTL, hRL]
    by_cases hz : specTotalLikes db u.id = 0
    · rw [if_neg (by rw [hz]; exact lt_irrefl 0), round1_zero]
      unfold specLikesGrowth
      rw [if_pos hz]
    · have hpos : 0 < specTotalLikes db u.id :=
        lt_of_le_of_ne (specTotalLikes_nonneg db u.id hnn) (Ne.symm hz)
      rw [if_pos hpos]
      unfold specLikesGrowth
      rw [if_neg hz]
  · dsimp only
    rw [hTC]
  · dsimp only
    rfl
  · dsimp only
    rw [hTV]
  · dsimp only
    rw [hTL]

def anDB : DB :=
  { emptyDB with
    users := [u1]
    posts := [{ basePost with id := 2, viewCount := 10, likeCount := 2, createdAt := 900 },
              { basePost with id := 3, viewCount := 5, likeCount := 1, createdAt := -5000000000 }]
    comments := [{ id := 4, postId := 2, authorName := "bob", content := "hi",
                   status := "approved", createdAt := 10 }]
    follows := [{ id := 5, followerId := 2, followingId := 1, createdAt := 10 }]
    nextId := 6 }

/-- Witness for C8: the theorem applied to a concrete store with one
recent and one old post, one approved comment and one follower. -/
theorem getAnalytics_growth_witness :
    ((uniqueFilter anDB.users (fun x => x.tokenIdentifier == "t1") = Except.ok (some u1)) ∧
      (∀ p ∈ anDB.posts, 0 ≤ p.viewCount ∧ 0 ≤ p.likeCount)) ∧
    (∃ r, getAnalytics anDB (some "t1") 1000 = Except.ok (some r) ∧
      r.viewsGrowth = specViewsGrowth anDB u1.id 1000 ∧
      r.likesGrowth = specLikesGrowth anDB u1.id 1000 ∧
      r.commentsGrowth = (if 0 < specTotalComments anDB u1.id then (15 : Rat) else 0) ∧
      r.followersGrowth = (if 0 < specFollowerCount anDB u1.id then (12 : Rat) else 0) ∧
      r.totalViews = specTotalViews anDB u1.id ∧
      r.totalLikes = specTotalLikes anDB u1.id) :=
  ⟨⟨by decide, by decide⟩, getAnalytics_growth anDB "t1" u1 1000 (by decide) (by decide)⟩

/-! ### C3 and C10: toggleLike -/

/-- Binding a pure Except value applies the continuation. -/
theorem except_pure_bind {α β : Type} (a : α) (f : α → Except String β) :
    ((pure a : Except String α) >>= f) = f a := rfl

/-- Patching a row by id commutes with looking the row up, when the
patch preserves the id. -/
theorem find?_patchById (posts : List Post) (id : Nat) (f : Post → Post)
    (hf : ∀ p, (f p).id = p.id) :
    (patchById posts id f).find? (fun p => p.id == id) =
      (posts.find? (fun p => p.id == id)).map f := by
  induction posts with
  | nil => rfl
  | cons p t ih =>
    unfold patchById at ih ⊢
    rw [List.map_cons]
    by_cases h : p.id = id
    · rw [if_pos (by simpa using h)]
      rw [List.find?_cons_of_pos _ (by simp [hf, h])]
      rw [List.find?_cons_of_pos _ (by simpa using h)]
      rfl
    · rw [if_neg (by simpa using h)]
      rw [List.find?_cons_of_neg _ (by simp [hf, h]),
          List.find?_cons_of_neg _ (by simpa using h)]
      exact ih

/-- Whether a like record by the given user exists for the given post. -/
def userLikedState (db : DB) (pid uid : Nat) : Bool :=
  db.likes.any (fun l => l.postId == pid && l.userId == some uid)

/-- Step characterization of `toggleLike` with an explicit user argument
when no like record matches: insert a like and increment. -/
theorem toggleLike_not_liked (db : DB) (pid uid : Nat) (p : Post) (t : Int)
    (hp : getPost db pid = some p) (hpub : p.status = PostStatus.published)
    (hex : db.likes.filter (fun l => l.postId == pid && l.userId == some uid) = []) :
    toggleLike db none t pid (some uid) =
      Except.ok ({ db with
          likes := db.likes ++ [{ id := db.nextId, postId := pid, userId := some uid, createdAt := t }],
          nextId := db.nextId + 1,
          posts := patchById db.posts pid (fun q => { q with likeCount := p.likeCount + 1 }) },
        { liked := true, likeCount := p.likeCount + 1 }) := by
  have hUF : uniqueFilter db.likes (fun l => l.postId == pid && l.userId == some uid) =
      Except.ok none := by
    unfold uniqueFilter
    rw [hex]
  simp only [toggleLike, hp, hpub, beq_self_eq_true, if_true, except_bind_ok,
    except_pure_bind, hUF]
  rfl

/-- Step characterization of `toggleLike` with an explicit user argument
when exactly one like record matches: delete it and decrement with the
floor at 0. -/
theorem toggleLike_liked (db : DB) (pid uid : Nat) (p : Post) (l0 : Like) (t : Int)
    (hp : getPost db pid = some p) (hpub : p.status = PostStatus.published)
    (hex : db.likes.filter (fun l => l.postId == pid && l.userId == some uid) = [l0]) :
    toggleLike db none t pid (some uid) =
      Except.ok ({ db with
          likes := db.likes.filter (fun x => x.id != l0.id),
          posts := patchById db.posts pid (fun q => { q with likeCount := max 0 (p.likeCount - 1) }) },
        { liked := false, likeCount := max 0 (p.likeCount - 1) }) := by
  have hUF : uniqueFilter db.likes (fun l => l.postId == pid && l.userId == some uid) =
      Except.ok (some l0) := by
    unfold uniqueFilter
    rw [hex]
  simp only [toggleLike, hp, hpub, beq_self_eq_true, if_true, except_bind_ok,
    except_pure_bind, hUF]
  rfl

/-- C3 (amended): toggling twice with an explicit known user on a
published post with a nonnegative counter and at most one matching like
record restores the liked state, never produces a negative likeCount,
and restores the likeCount except in the corner where the unlike branch
runs with likeCount already 0 (a stray like record): there the final
count is 1, one above the original 0. -/
theorem toggleLike_double (db : DB) (pid uid : Nat) (p : Post) (t1 t2 : Int)
    (hp : getPost db pid = some p)
    (hpub : p.status = PostStatus.published)
    (hnn : 0 ≤ p.likeCount)
    (huniq : (db.likes.filter (fun l => l.postId == pid && l.userId == some uid)).length ≤ 1) :
    ∃ db1 r1 db2 r2,
      toggleLike db none t1 pid (some uid) = Except.ok (db1, r1) ∧
      toggleLike db1 none t2 pid (some uid) = Except.ok (db2, r2) ∧
      0 ≤ r1.likeCount ∧ 0 ≤ r2.likeCount ∧
      r1.liked = !(userLikedState db pid uid) ∧
      r2.liked = userLikedState db pid uid ∧
      userLikedState db2 pid uid = userLikedState db pid uid ∧
      r2.likeCount = (if userLikedState db pid uid && (p.likeCount == 0) then 1 else p.likeCount) ∧
      (getPost db2 pid).map (fun q => q.likeCount) = some r2.likeCount := by
  cases hex : db.likes.filter (fun l => l.postId == pid && l.userId == some uid) with
  | nil =>
    have hstate : userLikedState db pid uid = false := by
      unfold userLikedState
      rw [List.any_eq_false]
      exact fun x hx => (List.filter_eq_nil_iff.mp hex) x hx
    have e1 := toggleLike_not_liked db pid uid p t1 hp hpub hex
    have hp1 : getPost { db with
        likes := db.likes ++ [{ id := db.nextId, postId := pid, userId := some uid, createdAt := t1 }],
        nextId := db.nextId + 1,
        posts := patchById db.posts pid (fun q => { q with likeCount := p.likeCount + 1 }) } pid
        = some { p with likeCount := p.likeCount + 1 } := by
      unfold getPost at hp ⊢
      dsimp only
      rw [find?_patchById db.posts pid (fun q => { q with likeCount := p.likeCount + 1 })
        (fun q => rfl), hp]
      rfl
    have hex1 : ({ db with
        likes := db.likes ++ [{ id := db.nextId, postId := pid, userId := some uid, createdAt := t1 }],
        nextId := db.nextId + 1,
        posts := patchById db.posts pid (fun q => { q with likeCount := p.likeCount + 1 }) } : DB).likes.filter
          (fun l => l.postId == pid && l.userId == some uid)
        = [{ id := db.nextId, postId := pid, userId := some uid, createdAt := t1 }] := by
      show (db.likes ++ [({ id := db.nextId, postId := pid, userId := some uid, createdAt := t1 } : Like)]).filter
        (fun l => l.postId == pid && l.userId == some uid) = _
      rw [List.filter_append, hex]
      simp
    have e2 := toggleLike_liked _ pid uid _ _ t2 hp1 hpub hex1
    refine ⟨_, _, _, _, e1, e2, ?_, ?_, ?_, ?_, ?_, ?_, ?_⟩
    · dsimp only
      omega
    · dsimp only
      exact le_max_left 0 _
    · simp [hstate]
    · simp [hstate]
    · rw [hstate]
      unfold userLikedState
      rw [List.any_eq_false]
      intro x hx
      have hx2 := List.mem_filter.mp hx
      rcases List.mem_append.mp hx2.1 with hin | hin
      · exact (List.filter_eq_nil_iff.mp hex) x hin
      · intro hpx
        have hxeq : x = { id := db.nextId, postId := pid, userId := some uid, createdAt := t1 } := by
          simpa using hin
        have hid := hx2.2
        rw [hxeq] at hid
        simp at hid
    · have harith : (0 : Int) ⊔ (p.likeCount + 1 - 1) = p.likeCount := by
        have h1 : p.likeCount + 1 - 1 = p.likeCount := by ring
        rw [h1]
        exact max_eq_right hnn
      rw [hstate]
      dsimp only
      rw [if_neg (by simp)]
      exact harith
    · dsimp only
      unfold getPost
      dsimp only
      rw [find?_patchById _ pid (fun q => { q with likeCount := (0 : Int) ⊔ (p.likeCount + 1 - 1) })
        (fun q => rfl)]
      rw [find?_patchById db.posts pid (fun q => { q with likeCount := p.likeCount + 1 })
        (fun q => rfl)]
      unfold getPost at hp
      rw [hp]
      rfl
  | cons l0 rest =>
    have hrest : rest = [] := by
      rw [hex] at huniq
      cases rest with
      | nil => rfl
      | cons a b => simp at huniq
    subst hrest
    have hl0mem : l0 ∈ db.likes.filter (fun l => l.postId == pid && l.userId == some uid) := by
      rw [hex]
      exact List.mem_cons_self _ _
    have hl0 : (l0.postId == pid && l0.userId == some uid) = true := (List.mem_filter.mp hl0mem).2
    have hstate : userLikedState db pid uid = true := by
      unfold userLikedState
      rw [List.any_eq_true]
      exact ⟨l0, (List.mem_filter.mp hl0mem).1, hl0⟩
    have e1 := toggleLike_liked db pid uid p l0 t1 hp hpub hex
    have hp1 : getPost { db with
        likes := db.likes.filter (fun x => x.id != l0.id),
        posts := patchById db.posts pid (fun q => { q with likeCount := max 0 (p.likeCount - 1) }) } pid
        = some { p with likeCount := max 0 (p.likeCount - 1) } := by
      unfold getPost at hp ⊢
      dsimp only
      rw [find?_patchById db.posts pid (fun q => { q with likeCount := max 0 (p.likeCount - 1) })
        (fun q => rfl), hp]
      rfl
    have hex1 : ({ db with
        likes := db.likes.filter (fun x => x.id != l0.id),
        posts := patchById db.posts pid (fun q => { q with likeCount := max 0 (p.likeCount - 1) }) } : DB).likes.filter
          (fun l => l.postId == pid && l.userId == some uid) = [] := by
      show (db.likes.filter (fun x => x.id != l0.id)).filter
        (fun l => l.postId == pid && l.userId == some uid) = []
      rw [List.filter_filter]
      rw [List.filter_congr (fun a ha => Bool.and_comm _ _)]
      rw [← List.filter_filter, hex]
      simp
    have e2 := toggleLike_not_liked _ pid uid _ t2 hp1 hpub hex1
    refine ⟨_, _, _, _, e1, e2, ?_, ?_, ?_, ?_, ?_, ?_, ?_⟩
    · dsimp only
      exact le_max_left 0 _
    · dsimp only
      have hle := le_max_left (0 : Int) (p.likeCount - 1)
      omega
    · simp [hstate]
    · simp [hstate]
    · rw [hstate]
      unfold userLikedState
      rw [List.any_eq_true]
      refine ⟨{ id := db.nextId, postId := pid, userId := some uid, createdAt := t2 }, ?_, by simp⟩
      exact List.mem_append.mpr (Or.inr (List.mem_cons_self _ _))
    · rw [hstate]
      dsimp only
      simp only [Bool.true_and]
      by_cases hz : p.likeCount = 0
      · rw [if_pos (by simp [hz])]
        rw [hz]
        decide
      · rw [if_neg (by simp [hz])]
        have h1 : (0 : Int) ⊔ (p.likeCount - 1) = p.likeCount - 1 := max_eq_right (by omega)
        rw [h1]
        ring
    · dsimp only
      unfold getPost
      dsimp only
      rw [find?_patchById _ pid (fun q => { q with likeCount := ({ p with likeCount := max 0 (p.likeCount - 1) } : Post).likeCount + 1 })
        (fun q => rfl)]
      rw [find?_patchById db.posts pid (fun q => { q with likeCount := max 0 (p.likeCount - 1) })
        (fun q => rfl)]
      unfold getPost at hp
      rw [hp]
      rfl

/-- Run toggleLike twice in sequence with the same explicit user,
returning the final store and both responses. -/
def toggleTwice (db : DB) (t1 t2 : Int) (pid uid : Nat) :
    Except String (DB × ToggleLikeResponse × ToggleLikeResponse) := do
  let r1 ← toggleLike db none t1 pid (some uid)
  let r2 ← toggleLike r1.fst none t2 pid (some uid)
  pure (r2.fst, r1.snd, r2.snd)

def strayDB : DB :=
  { emptyDB with
    users := [u1, u2]
    posts := [{ basePost with id := 3, likeCount := 0 }]
    likes := [{ id := 4, postId := 3, userId := some 2, createdAt := 5 }]
    nextId := 6 }

/-- C3 counterexample: on a published post with likeCount = 0 while a
stray like record for the (post, user) pair exists, toggling twice
returns responses with likeCount 0 then 1 and leaves the stored
likeCount at 1: the double toggle does not restore the original count 0
(the first decrement is clamped at 0, the second call adds 1). -/
theorem toggleLike_double_counterexample :
    (getPost strayDB 3).map (fun q => q.likeCount) = some 0 ∧
    (toggleTwice strayDB 10 11 3 2).map
      (fun x => ((x.snd.fst.likeCount, x.snd.snd.likeCount),
        (getPost x.fst 3).map (fun q => q.likeCount)))
      = Except.ok ((0, 1), some 1) := by
  decide

def post3 : Post := { basePost with id := 3, likeCount := 5 }

def likeDB : DB :=
  { emptyDB with
    users := [u1, u2]
    posts := [post3]
    likes := [{ id := 4, postId := 3, userId := some 2, createdAt := 5 }]
    nextId := 6 }

/-- Witness for C3: the amended theorem applied to a store where user 2
already likes post 3 and the post holds a consistent likeCount of 5. -/
theorem toggleLike_double_witness :
    (getPost likeDB 3 = some post3 ∧
      post3.status = PostStatus.published ∧
      0 ≤ post3.likeCount ∧
      (likeDB.likes.filter (fun l => l.postId == 3 && l.userId == some 2)).length ≤ 1) ∧
    (∃ db1 r1 db2 r2,
      toggleLike likeDB none 10 3 (some 2) = Except.ok (db1, r1) ∧
      toggleLike db1 none 11 3 (some 2) = Except.ok (db2, r2) ∧
      0 ≤ r1.likeCount ∧ 0 ≤ r2.likeCount ∧
      r1.liked = !(userLikedState likeDB 3 2) ∧
      r2.liked = userLikedState likeDB 3 2 ∧
      userLikedState db2 3 2 = userLikedState likeDB 3 2 ∧
      r2.likeCount = (if userLikedState likeDB 3 2 && (post3.likeCount == 0) then 1 else post3.likeCount) ∧
      (getPost db2 3).map (fun q => q.likeCount) = some r2.likeCount) :=
  ⟨⟨by decide, by decide, by decide, by decide⟩,
    toggleLike_double likeDB 3 2 post3 10 11 (by decide) (by decide) (by decide) (by decide)⟩

/-- Step characterization of `toggleLike` without a user argument when
the caller identity does not resolve: the existing-like check is
skipped, an anonymous like is inserted and the count incremented. -/
theorem toggleLike_anonymous (db : DB) (pid : Nat) (p : Post) (t : Int) (identity : Option String)
    (hp : getPost db pid = some p) (hpub : p.status = PostStatus.published)
    (hres : identity = none ∨ ∃ tok, identity = some tok ∧
      uniqueFilter db.users (fun x => x.tokenIdentifier == tok) = Except.ok none) :
    toggleLike db identity t pid none =
      Except.ok ({ db with
          likes := db.likes ++ [{ id := db.nextId, postId := pid, userId := none, createdAt := t }],
          nextId := db.nextId + 1,
          posts := patchById db.posts pid (fun q => { q with likeCount := p.likeCount + 1 }) },
        { liked := true, likeCount := p.likeCount + 1 }) := by
  rcases hres with rfl | ⟨tok, rfl, hUF⟩
  · simp only [toggleLike, hp, hpub, beq_self_eq_true, if_true, except_bind_ok, except_pure_bind]
    rfl
  · simp only [toggleLike, hp, hpub, beq_self_eq_true, if_true, except_bind_ok,
      except_pure_bind, hUF]
    rfl

/-- Iterated anonymous unauthenticated toggleLike calls on one post. -/
def anonToggleIter (db : DB) (t : Int) (pid : Nat) : Nat → DB
  | 0 => db
  | Nat.succ n =>
    match toggleLike (anonToggleIter db t pid n) none t pid none with
    | Except.ok r => r.fst
    | Except.error _ => anonToggleIter db t pid n

/-- C10: with no userId argument and an unresolvable caller identity,
`toggleLike` skips the existing-like check, always inserts a new
anonymous like record, increments likeCount by 1 and returns
liked = true; iterating the anonymous call n times grows the stored
likeCount to the original plus n and appends n like records, so
repeated calls increase the count without bound instead of toggling. -/
theorem toggleLike_anonymous_unbounded (db : DB) (pid : Nat) (p : Post) (t : Int)
    (identity : Option String) (n : Nat)
    (hp : getPost db pid = some p) (hpub : p.status = PostStatus.published)
    (hres : identity = none ∨ ∃ tok, identity = some tok ∧
      uniqueFilter db.users (fun x => x.tokenIdentifier == tok) = Except.ok none) :
    toggleLike db identity t pid none =
      Except.ok ({ db with
          likes := db.likes ++ [{ id := db.nextId, postId := pid, userId := none, createdAt := t }],
          nextId := db.nextId + 1,
          posts := patchById db.posts pid (fun q => { q with likeCount := p.likeCount + 1 }) },
        { liked := true, likeCount := p.likeCount + 1 }) ∧
    (getPost (anonToggleIter db t pid n) pid).map (fun q => q.likeCount)
      = some (p.likeCount + (n : Int)) ∧
    (anonToggleIter db t pid n).likes.length = db.likes.length + n := by
  have key : ∀ m : Nat, getPost (anonToggleIter db t pid m) pid
      = some { p with likeCount := p.likeCount + (m : Int) } ∧
      (anonToggleIter db t pid m).likes.length = db.likes.length + m := by
    intro m
    induction m with
    | zero =>
      constructor
      · have h0 : p.likeCount + ((0 : Nat) : Int) = p.likeCount := by
          push_cast
          ring
        show getPost db pid = _
        rw [hp, h0]
      · rfl
    | succ k ih =>
      have hstep := toggleLike_anonymous (anonToggleIter db t pid k) pid
        { p with likeCount := p.likeCount + (k : Int) } t none ih.1 hpub (Or.inl rfl)
      have harith : p.likeCount + (k : Int) + 1 = p.likeCount + ((Nat.succ k : Nat) : Int) := by
        push_cast
        ring
      constructor
      · show getPost (match toggleLike (anonToggleIter db t pid k) none t pid none with
          | Except.ok r => r.fst
          | Except.error _ => anonToggleIter db t pid k) pid = _
        rw [hstep]
        show getPost ({ anonToggleIter db t pid k with
          likes := (anonToggleIter db t pid k).likes ++
            [{ id := (anonToggleIter db t pid k).nextId, postId := pid, userId := none, createdAt := t }],
          nextId := (anonToggleIter db t pid k).nextId + 1,
          posts := patchById (anonToggleIter db t pid k).posts pid
            (fun q => { q with likeCount := p.likeCount + (k : Int) + 1 }) } : DB) pid = _
        unfold getPost
        dsimp only
        rw [find?_patchById _ pid (fun q => { q with likeCount := p.likeCount + (k : Int) + 1 })
          (fun q => rfl)]
        have ih1 := ih.1
        unfold getPost at ih1
        rw [ih1, harith]
        rfl
      · show (match toggleLike (anonToggleIter db t pid k) none t pid none with
          | Except.ok r => r.fst
          | Except.error _ => anonToggleIter db t pid k).likes.length = _
        rw [hstep]
        show ((anonToggleIter db t pid k).likes ++
          [({ id := (anonToggleIter db t pid k).nextId, postId := pid, userId := none, createdAt := t } : Like)]).length = _
        rw [List.length_append, ih.2]
        rfl
  refine ⟨toggleLike_anonymous db pid p t identity hp hpub hres, ?_, (key n).2⟩
  rw [(key n).1]
  rfl

def anonPost : Post := { basePost with id := 3 }

def anonDB : DB := { emptyDB with users := [u1], posts := [anonPost], nextId := 4 }

/-- Witness for C10: the theorem applied with an unauthenticated caller
and three iterated anonymous calls against a one-post store. -/
theorem toggleLike_anonymous_unbounded_witness :
    (getPost anonDB 3 = some anonPost ∧ anonPost.status = PostStatus.published ∧
      ((none : Option String) = none ∨ ∃ tok, (none : Option String) = some tok ∧
        uniqueFilter anonDB.users (fun x => x.tokenIdentifier == tok) = Except.ok none)) ∧
    (toggleLike anonDB none 7 3 none =
      Except.ok ({ anonDB with
          likes := anonDB.likes ++ [{ id := anonDB.nextId, postId := 3, userId := none, createdAt := 7 }],
          nextId := anonDB.nextId + 1,
          posts := patchById anonDB.posts 3 (fun q => { q with likeCount := anonPost.likeCount + 1 }) },
        { liked := true, likeCount := anonPost.likeCount + 1 }) ∧
      (getPost (anonToggleIter anonDB 7 3 3) 3).map (fun q => q.likeCount)
        = some (anonPost.likeCount + ((3 : Nat) : Int)) ∧
      (anonToggleIter anonDB 7 3 3).likes.length = anonDB.likes.length + 3) :=
  ⟨⟨by decide, by decide, Or.inl rfl⟩,
    toggleLike_anonymous_unbounded anonDB 3 anonPost 7 none 3 (by decide) (by decide) (Or.inl rfl)⟩

/-! ### C1: trending monotonicity -/

/-- Every entry of the trending result carries the score computed from
its own post: `viewCount + likeCount * 3`. -/
theorem trending_entry_score (db : DB) (now : Int) (lim : Option Nat) :
    ∀ e ∈ getTrendingPosts db now lim, e.trendingScore = specTrendingScore e.post := by
  intro e he
  simp only [getTrendingPosts] at he
  have he1 := (List.mem_filter.mp he).1
  obtain ⟨sp, hsp, rfl⟩ := List.mem_map.mp he1
  have hsp2 : sp ∈ List.insertionSort trendGE
      ((db.posts.filter (trendingCandidate now)).map (fun p =>
        { post := p, trendingScore := p.viewCount + p.likeCount * 3 : ScoredPost })) :=
    List.mem_of_mem_take hsp
  have hsp3 := (List.mem_insertionSort trendGE).mp hsp2
  obtain ⟨p, hp, rfl⟩ := List.mem_map.mp hsp3
  rfl

/-- The trending result is pairwise descending in the stored score. -/
theorem trending_sorted (db : DB) (now : Int) (lim : Option Nat) :
    (getTrendingPosts db now lim).Pairwise
      (fun x y => y.trendingScore ≤ x.trendingScore) := by
  simp only [getTrendingPosts]
  apply List.Pairwise.sublist (List.filter_sublist _)
  rw [List.pairwise_map]
  apply List.Pairwise.sublist (List.take_sublist _ _)
  exact List.sorted_insertionSort trendGE _

/-- C1 (amended): for two candidate posts where A dominates B in views
and likes with one strict, the trending score of A is strictly above
that of B; consequently B never precedes A in the returned list: at any
pair of positions holding A and B, A is earlier. (A itself can be
absent from the list when the limit truncates it away or its author is
dangling, which is why the claim as stated fails; see the
counterexample.) -/
theorem trending_monotone (db : DB) (now : Int) (lim : Option Nat) (A B : Post)
    (hA : A ∈ db.posts.filter (trendingCandidate now))
    (hB : B ∈ db.posts.filter (trendingCandidate now))
    (hv : B.viewCount ≤ A.viewCount) (hl : B.likeCount ≤ A.likeCount)
    (hstrict : A.viewCount ≠ B.viewCount ∨ A.likeCount ≠ B.likeCount) :
    specTrendingScore B < specTrendingScore A ∧
    ∀ (i j : Nat) (hi : i < (getTrendingPosts db now lim).length)
      (hj : j < (getTrendingPosts db now lim).length),
      ((getTrendingPosts db now lim).get ⟨i, hi⟩).post = A →
      ((getTrendingPosts db now lim).get ⟨j, hj⟩).post = B → i < j := by
  have hscore : specTrendingScore B < specTrendingScore A := by
    unfold specTrendingScore
    omega
  refine ⟨hscore, ?_⟩
  intro i j hi hj hAi hBj
  by_contra hnot
  push_neg at hnot
  rcases Nat.lt_or_eq_of_le hnot with hji | hji
  · have hpair := trending_sorted db now lim
    have hord := (List.pairwise_iff_get.mp hpair) ⟨j, hj⟩ ⟨i, hi⟩ hji
    have hsA := trending_entry_score db now lim _ (List.get_mem (getTrendingPosts db now lim) i hi)
    have hsB := trending_entry_score db now lim _ (List.get_mem (getTrendingPosts db now lim) j hj)
    rw [hAi] at hsA
    rw [hBj] at hsB
    rw [hsA, hsB] at hord
    omega
  · subst hji
    rw [hAi] at hBj
    subst hBj
    rcases hstrict with h | h
    · exact h rfl
    · exact h rfl

def postA : Post :=
  { basePost with id := 2, authorId := 99, viewCount := 10, likeCount := 1, publishedAt := some 50 }

def postB : Post :=
  { basePost with id := 3, authorId := 1, viewCount := 5, likeCount := 0, publishedAt := some 50 }

def trendDB : DB := { emptyDB with users := [u1], posts := [postA, postB], nextId := 4 }

/-- C1 counterexample: postA dominates postB (strictly more views and
likes) and both are candidates of the 7-day window, yet the returned
list is exactly the entry of postB: postA is dropped because its author
reference dangles, so postA does not appear before postB as the claim
demands. -/
theorem trending_monotone_counterexample :
    postA ∈ trendDB.posts.filter (trendingCandidate 100) ∧
    postB ∈ trendDB.posts.filter (trendingCandidate 100) ∧
    postB.viewCount ≤ postA.viewCount ∧ postB.likeCount ≤ postA.likeCount ∧
    postA.viewCount ≠ postB.viewCount ∧
    (getTrendingPosts trendDB 100 none).map (fun e => e.post.id) = [3] := by
  decide

def postA2 : Post :=
  { basePost with id := 2, authorId := 1, viewCount := 10, likeCount := 1, publishedAt := some 50 }

def trendDB2 : DB := { emptyDB with users := [u1], posts := [postA2, postB], nextId := 4 }

/-- Witness for C1: the amended theorem applied to two resolvable
candidate posts where postA2 strictly dominates postB. -/
theorem trending_monotone_witness :
    (postA2 ∈ trendDB2.posts.filter (trendingCandidate 100) ∧
      postB ∈ trendDB2.posts.filter (trendingCandidate 100) ∧
      postB.viewCount ≤ postA2.viewCount ∧ postB.likeCount ≤ postA2.likeCount ∧
      (postA2.viewCount ≠ postB.viewCount ∨ postA2.likeCount ≠ postB.likeCount)) ∧
    (specTrendingScore postB < specTrendingScore postA2 ∧
      ∀ (i j : Nat) (hi : i < (getTrendingPosts trendDB2 100 none).length)
        (hj : j < (getTrendingPosts trendDB2 100 none).length),
        ((getTrendingPosts trendDB2 100 none).get ⟨i, hi⟩).post = postA2 →
        ((getTrendingPosts trendDB2 100 none).get ⟨j, hj⟩).post = postB → i < j) :=
  ⟨⟨by decide, by decide, by decide, by decide, Or.inl (by decide)⟩,
    trending_monotone trendDB2 100 none postA2 postB (by decide) (by decide) (by decide)
      (by decide) (Or.inl (by decide))⟩

/-! ### C2 and C9: suggested users -/

/-- Recency of a suggested candidate as the claim words it: its most
recent published post (the lastPostAt field) lies within the last 7
days; a candidate without a publishedAt is not recent. -/
def claimRecent (now : Int) (s : SuggestedUser) : Bool :=
  match s.lastPostAt with
  | some t => decide (now - millisPerWeek < t)
  | none => false

/-- For a clock at least 7 days after the epoch, the claim-level
recency coincides with the comparator recency
`(lastPostAt || 0) > now - 7 days`. -/
theorem claimRecent_eq_isRecent (now : Int) (s : SuggestedUser)
    (hnow : millisPerWeek ≤ now) :
    claimRecent now s = isRecentSugg now s := by
  unfold claimRecent isRecentSugg lastOr0
  cases h : s.lastPostAt with
  | none =>
    have hlt : ¬(now - millisPerWeek < 0) := by omega
    simp [hlt]
  | some t =>
    rfl

/-- Inversion of `getSuggestedUsers`: a successful run is the sorted,
truncated candidate construction for the resolved current user. -/
theorem getSuggestedUsers_inv (db : DB) (identity : Option String) (now : Int) (lim : Option Nat)
    (out : List SuggestedUser)
    (hout : getSuggestedUsers db identity now lim = Except.ok out) :
    ∃ currentUser : Option User,
      out = (List.insertionSort (suggLe now)
        ((((db.users.filter (fun u => match currentUser with
            | some cu => u.id != cu.id
            | none => true)).filter (fun u =>
              !((match currentUser with
                 | none => ([] : List Nat)
                 | some cu => (db.follows.filter (fun (f : Follow) => f.followerId == cu.id)).map
                     (fun (f : Follow) => f.followingId)).contains u.id) && truthyStr u.username)).map
            (mkSuggestion db)).filter (fun s => decide (s.postCount > 0)))).take (defLimit lim) ∧
      (∀ tok, identity = some tok →
        uniqueFilter db.users (fun u => u.tokenIdentifier == tok) = Except.ok currentUser) := by
  cases identity with
  | none =>
    refine ⟨none, ?_, ?_⟩
    · simp only [getSuggestedUsers, except_pure_bind] at hout
      exact (Except.ok.inj hout).symm
    · intro tok htok
      cases htok
  | some tok =>
    cases hcu : uniqueFilter db.users (fun u => u.tokenIdentifier == tok) with
    | error e =>
      rw [getSuggestedUsers, hcu] at hout
      cases hout
    | ok cu =>
      refine ⟨cu, ?_, ?_⟩
      · rw [getSuggestedUsers, hcu, except_bind_ok] at hout
        exact (Except.ok.inj hout).symm
      · intro tok2 htok
        cases htok
        exact hcu

/-- Every element of the sorted, truncated candidate list is a
suggestion built from a user of the underlying candidate pool that
passed the postCount filter. -/
theorem mem_rank_from_mk (db : DB) (now : Int) (k : Nat) (users2 : List User)
    (q : SuggestedUser → Bool) :
    ∀ s ∈ (List.insertionSort (suggLe now) ((users2.map (mkSuggestion db)).filter q)).take k,
      ∃ u, u ∈ users2 ∧ s = mkSuggestion db u ∧ q s = true := by
  intro s hs
  have h1 := List.mem_of_mem_take hs
  have h2 := (List.mem_insertionSort (suggLe now)).mp h1
  have h3 := List.mem_filter.mp h2
  obtain ⟨u, hu, rfl⟩ := List.mem_map.mp h3.1
  exact ⟨u, hu, rfl, h3.2⟩

/-- The sorted, truncated candidate list is pairwise ordered by the
comparator preorder. -/
theorem rank_pairwise (now : Int) (k : Nat) (l : List SuggestedUser) :
    ((List.insertionSort (suggLe now) l).take k).Pairwise (suggLe now) :=
  List.Pairwise.sublist (List.take_sublist _ _) (List.sorted_insertionSort (suggLe now) l)

/-- C2: in a successful getSuggestedUsers result (clock at least 7 days
past the epoch), every candidate whose most recent published post is
within the last 7 days precedes every candidate whose most recent post
is older (or absent), regardless of engagementScore; within one recency
bucket the scores are descending. -/
theorem suggested_recency_bucket (db : DB) (identity : Option String) (now : Int)
    (lim : Option Nat) (out : List SuggestedUser)
    (hnow : millisPerWeek ≤ now)
    (hout : getSuggestedUsers db identity now lim = Except.ok out) :
    ∀ (i j : Nat) (hi : i < out.length) (hj : j < out.length), i < j →
      (claimRecent now (out.get ⟨j, hj⟩) = true → claimRecent now (out.get ⟨i, hi⟩) = true) ∧
      (claimRecent now (out.get ⟨i, hi⟩) = claimRecent now (out.get ⟨j, hj⟩) →
        (out.get ⟨j, hj⟩).engagementScore ≤ (out.get ⟨i, hi⟩).engagementScore) := by
  obtain ⟨cu, hr, _⟩ := getSuggestedUsers_inv db identity now lim out hout
  intro i j hi hj hij
  have hpair : out.Pairwise (suggLe now) := by
    rw [hr]
    exact rank_pairwise now _ _
  have hsl := (List.pairwise_iff_get.mp hpair) ⟨i, hi⟩ ⟨j, hj⟩ hij
  simp only [show ∀ s, claimRecent now s = isRecentSugg now s from
    fun s => claimRecent_eq_isRecent now s hnow]
  exact hsl

/-- C9: every returned suggestion corresponds to a stored user distinct
from the resolved caller, not followed by the caller, with a truthy
username and at least one published post, and its engagementScore is
the claim formula over only the up-to-5 most recent published posts. -/
theorem suggested_candidate_set (db : DB) (tok : String) (cu : User) (now : Int)
    (lim : Option Nat) (out : List SuggestedUser)
    (hcu : uniqueFilter db.users (fun x => x.tokenIdentifier == tok) = Except.ok (some cu))
    (hout : getSuggestedUsers db (some tok) now lim = Except.ok out) :
    ∀ s ∈ out, ∃ u, u ∈ db.users ∧
      s.id = u.id ∧ u.id ≠ cu.id ∧
      (¬ ∃ f, f ∈ db.follows ∧ f.followerId = cu.id ∧ f.followingId = u.id) ∧
      truthyStr u.username = true ∧
      (∃ p, p ∈ db.posts ∧ p.authorId = u.id ∧ p.status = PostStatus.published) ∧
      s.engagementScore = specEngagementScore db u.id := by
  obtain ⟨cu2, hr, hres⟩ := getSuggestedUsers_inv db (some tok) now lim out hout
  have hcu2 : cu2 = some cu := by
    have h := hres tok rfl
    rw [hcu] at h
    exact (Except.ok.inj h).symm
  subst hcu2
  intro s hs
  rw [hr] at hs
  obtain ⟨u, hu, hsu, hq⟩ := mem_rank_from_mk db now _ _ _ _ hs
  have h2 := List.mem_filter.mp hu
  have h3 := List.mem_filter.mp h2.1
  obtain ⟨hnc, htr⟩ := Bool.and_eq_true_iff.mp h2.2
  refine ⟨u, h3.1, ?_, ?_, ?_, htr, ?_, ?_⟩
  · rw [hsu]
    rfl
  · simpa using h3.2
  · rintro ⟨f, hf, hfr, hfg⟩
    have hXfalse : ((db.follows.filter (fun (f : Follow) => f.followerId == cu.id)).map
        (fun (f : Follow) => f.followingId)).contains u.id = false := by
      simpa using hnc
    have hmem : u.id ∈ (db.follows.filter (fun (f : Follow) => f.followerId == cu.id)).map
        (fun (f : Follow) => f.followingId) := by
      refine List.mem_map.mpr ⟨f, ?_, hfg⟩
      exact List.mem_filter.mpr ⟨hf, by simp [hfr]⟩
    have : ((db.follows.filter (fun (f : Follow) => f.followerId == cu.id)).map
        (fun (f : Follow) => f.followingId)).contains u.id = true := by
      show List.elem u.id _ = true
      exact List.elem_iff.mpr hmem
    rw [this] at hXfalse
    cases hXfalse
  · rw [hsu] at hq
    have hpc : (mkSuggestion db u).postCount > 0 := of_decide_eq_true hq
    have hlen : 0 < (((db.posts.filter (fun p => p.authorId == u.id &&
        p.status == PostStatus.published)).reverse).take 5).length := hpc
    obtain ⟨p, hp⟩ := List.exists_mem_of_length_pos hlen
    have hp2 := List.mem_reverse.mp (List.mem_of_mem_take hp)
    have hp3 := List.mem_filter.mp hp2
    obtain ⟨ha, hst⟩ := Bool.and_eq_true_iff.mp hp3.2
    exact ⟨p, hp3.1, by simpa using ha, by simpa using hst⟩
  · rw [hsu]
    show (mkSuggestion db u).engagementScore = _
    unfold mkSuggestion specEngagementScore top5Published specFollowerCount
    dsimp only
    rw [foldl_add_map, foldl_add_map, zero_add, zero_add]

def sp1 : Post := { basePost with id := 10, authorId := 1, publishedAt := some 1209599000 }

def sp2 : Post := { basePost with id := 11, authorId := 2, publishedAt := some 10 }

def suggDB : DB := { emptyDB with users := [u1, u2], posts := [sp1, sp2], nextId := 12 }

def sugg1 : SuggestedUser :=
  { id := 1, name := "alice", username := some "alice", imageUrl := none,
    followerCount := 0, postCount := 1, engagementScore := 0,
    lastPostAt := some 1209599000,
    recentPosts := [{ id := 10, title := "p", viewCount := 0, likeCount := 0 }] }

def sugg2 : SuggestedUser :=
  { id := 2, name := "bob", username := some "bob", imageUrl := none,
    followerCount := 0, postCount := 1, engagementScore := 0,
    lastPostAt := some 10,
    recentPosts := [{ id := 11, title := "p", viewCount := 0, likeCount := 0 }] }

/-- Witness for C2: the theorem applied to a store whose output holds a
recent candidate followed by a stale one. -/
theorem suggested_recency_bucket_witness :
    (millisPerWeek ≤ (1209600000 : Int) ∧
      getSuggestedUsers suggDB none 1209600000 none = Except.ok [sugg1, sugg2]) ∧
    (∀ (i j : Nat) (hi : i < ([sugg1, sugg2] : List SuggestedUser).length)
      (hj : j < ([sugg1, sugg2] : List SuggestedUser).length), i < j →
      (claimRecent 1209600000 (([sugg1, sugg2] : List SuggestedUser).get ⟨j, hj⟩) = true →
        claimRecent 1209600000 (([sugg1, sugg2] : List SuggestedUser).get ⟨i, hi⟩) = true) ∧
      (claimRecent 1209600000 (([sugg1, sugg2] : List SuggestedUser).get ⟨i, hi⟩) =
          claimRecent 1209600000 (([sugg1, sugg2] : List SuggestedUser).get ⟨j, hj⟩) →
        (([sugg1, sugg2] : List SuggestedUser).get ⟨j, hj⟩).engagementScore ≤
          (([sugg1, sugg2] : List SuggestedUser).get ⟨i, hi⟩).engagementScore)) :=
  ⟨⟨by decide, by decide⟩,
    suggested_recency_bucket suggDB none 1209600000 none [sugg1, sugg2] (by decide) (by decide)⟩

def suggDB9 : DB := { emptyDB with users := [u1, u2], posts := [sp2], nextId := 12 }

/-- Witness for C9: the theorem applied to a store where the resolved
caller u1 sees the single candidate u2 with one published post. -/
theorem suggested_candidate_set_witness :
    (uniqueFilter suggDB9.users (fun x => x.tokenIdentifier == "t1") = Except.ok (some u1) ∧
      getSuggestedUsers suggDB9 (some "t1") 1209600000 none = Except.ok [sugg2]) ∧
    (∀ s ∈ ([sugg2] : List SuggestedUser), ∃ u, u ∈ suggDB9.users ∧
      s.id = u.id ∧ u.id ≠ u1.id ∧
      (¬ ∃ f, f ∈ suggDB9.follows ∧ f.followerId = u1.id ∧ f.followingId = u.id) ∧
      truthyStr u.username = true ∧
      (∃ p, p ∈ suggDB9.posts ∧ p.authorId = u.id ∧ p.status = PostStatus.published) ∧
      s.engagementScore = specEngagementScore suggDB9 u.id) :=
  ⟨⟨by decide, by decide⟩,
    suggested_candidate_set suggDB9 "t1" u1 1209600000 none [sugg2] (by decide) (by decide)⟩

/-! ### C6: publishedAt assigned once -/

/-- The timestamp an operation runs at. -/
def opTime : PostOp → Int
  | PostOp.createOp _ _ n => n
  | PostOp.updateOp _ _ _ n => n

/-- Whether an operation attempts to move a currently published post
back to draft. -/
def stepReverts (db : DB) (op : PostOp) : Bool :=
  match op with
  | PostOp.createOp _ _ _ => false
  | PostOp.updateOp _ id args _ =>
    match getPost db id with
    | some p => args.status == some PostStatus.draft && p.status == PostStatus.published
    | none => false

/-- No operation of the sequence, run in its actual intermediate state,
reverts a published post to draft. -/
def noReversion : DB → List PostOp → Bool
  | _, [] => true
  | db, op :: rest => !stepReverts db op && noReversion (applyOp db op) rest

/-- Store sanity for the posts table: drafts carry no `publishedAt`
(the documented invariant), ids are unique (Convex document ids), and
every id is below the allocator cursor. -/
def postsWellFormed (db : DB) : Prop :=
  (∀ p ∈ db.posts, p.status = PostStatus.draft → p.publishedAt = none) ∧
  (db.posts.map (fun p => p.id)).Nodup ∧
  (∀ p ∈ db.posts, p.id < db.nextId)

/-- The field patches never touch `publishedAt`. -/
theorem applyFieldPatches_publishedAt (post : Post) (args : UpdateArgs) (now : Int) :
    (applyFieldPatches post args now).publishedAt = post.publishedAt := by
  unfold applyFieldPatches
  cases args.title <;> cases args.content <;> cases args.tags <;>
    cases args.category <;> cases args.featuredImage <;> cases args.scheduledFor <;> rfl

/-- The field patches never touch `status`. -/
theorem applyFieldPatches_status (post : Post) (args : UpdateArgs) (now : Int) :
    (applyFieldPatches post args now).status = post.status := by
  unfold applyFieldPatches
  cases args.title <;> cases args.content <;> cases args.tags <;>
    cases args.category <;> cases args.featuredImage <;> cases args.scheduledFor <;> rfl

/-- The field patches never touch the id. -/
theorem applyFieldPatches_id (post : Post) (args : UpdateArgs) (now : Int) :
    (applyFieldPatches post args now).id = post.id := by
  unfold applyFieldPatches
  cases args.title <;> cases args.content <;> cases args.tags <;>
    cases args.category <;> cases args.featuredImage <;> cases args.scheduledFor <;> rfl

/-- The assembled patch assigns `publishedAt` exactly on the
draft-to-published transition. -/
theorem applyUpdateData_publishedAt (post : Post) (args : UpdateArgs) (now : Int) :
    (applyUpdateData post args now).publishedAt =
      (if args.status == some PostStatus.published && post.status == PostStatus.draft
       then some now else post.publishedAt) := by
  unfold applyUpdateData
  cases hst : args.status with
  | none => simp [applyFieldPatches_publishedAt]
  | some st =>
    cases st <;> cases hps : post.status <;>
      simp [applyFieldPatches_publishedAt, hps]

/-- The assembled patch sets the status to the provided one, if any. -/
theorem applyUpdateData_status (post : Post) (args : UpdateArgs) (now : Int) :
    (applyUpdateData post args now).status =
      (match args.status with | some st => st | none => post.status) := by
  unfold applyUpdateData
  cases hst : args.status with
  | none => simp [applyFieldPatches_status]
  | some st =>
    cases st <;> cases hps : post.status <;>
      simp [applyFieldPatches_status, hps]

/-- The assembled patch keeps the id. -/
theorem applyUpdateData_id (post : Post) (args : UpdateArgs) (now : Int) :
    (applyUpdateData post args now).id = post.id := by
  unfold applyUpdateData
  cases hst : args.status with
  | none => simp [applyFieldPatches_id]
  | some st =>
    cases st <;> cases hps : post.status <;>
      simp [applyFieldPatches_id, hps]

/-- Patching by id commutes with lookup by a possibly different id,
when the patch preserves the id of the patched rows. -/
theorem find?_patchById_general (posts : List Post) (pid idq : Nat) (f : Post → Post)
    (hf : ∀ p, p.id = pid → (f p).id = p.id) :
    (patchById posts pid f).find? (fun p => p.id == idq) =
      (posts.find? (fun p => p.id == idq)).map (fun p => if p.id == pid then f p else p) := by
  induction posts with
  | nil => rfl
  | cons p t ih =>
    unfold patchById at ih ⊢
    rw [List.map_cons]
    by_cases h2 : p.id = pid
    · rw [if_pos (by simpa using h2)]
      by_cases hq : p.id = idq
      · rw [List.find?_cons_of_pos _ (by
          show ((f p).id == idq) = true
          rw [hf p h2]
          simpa using hq)]
        rw [List.find?_cons_of_pos _ (by simpa using hq)]
        simp [h2]
      · rw [List.find?_cons_of_neg _ (by
          show ¬((f p).id == idq) = true
          rw [hf p h2]
          simpa using hq)]
        rw [List.find?_cons_of_neg _ (by simpa using hq)]
        exact ih
    · rw [if_neg (by simpa using h2)]
      by_cases hq : p.id = idq
      · rw [List.find?_cons_of_pos _ (by simpa using hq),
            List.find?_cons_of_pos _ (by simpa using hq)]
        simp [h2]
      · rw [List.find?_cons_of_neg _ (by simpa using hq),
            List.find?_cons_of_neg _ (by simpa using hq)]
        exact ih

/-- Patching by id leaves the list of ids unchanged, when the patch
preserves the id of the patched rows. -/
theorem patchById_map_id (posts : List Post) (pid : Nat) (f : Post → Post)
    (hf : ∀ p, p.id = pid → (f p).id = p.id) :
    (patchById posts pid f).map (fun p => p.id) = posts.map (fun p => p.id) := by
  unfold patchById
  rw [List.map_map]
  refine List.map_congr_left ?_
  intro p hp
  simp only [Function.comp_apply]
  by_cases h : p.id = pid
  · rw [if_pos (by simpa using h)]
    exact hf p h
  · rw [if_neg (by simpa using h)]

/-- Rows of a patched table are either untouched rows or the patch of a
matching row. -/
theorem mem_patchById (posts : List Post) (pid : Nat) (f : Post → Post) (r : Post)
    (hr : r ∈ patchById posts pid f) :
    ∃ p, p ∈ posts ∧ ((p.id = pid ∧ r = f p) ∨ (p.id ≠ pid ∧ r = p)) := by
  unfold patchById at hr
  obtain ⟨p, hp, hrp⟩ := List.mem_map.mp hr
  by_cases h : p.id = pid
  · rw [if_pos (by simpa using h)] at hrp
    exact ⟨p, hp, Or.inl ⟨h, hrp.symm⟩⟩
  · rw [if_neg (by simpa using h)] at hrp
    exact ⟨p, hp, Or.inr ⟨h, hrp.symm⟩⟩

/-- In a table with unique ids, a row found by id lookup is the only row
with that id. -/
theorem find?_eq_of_mem_of_nodup (posts : List Post) (idq : Nat) (q r : Post)
    (hnd : (posts.map (fun p => p.id)).Nodup)
    (hfind : posts.find? (fun p => p.id == idq) = some q)
    (hr : r ∈ posts) (hrid : r.id = idq) : r = q := by
  have hq := List.mem_of_find?_eq_some hfind
  have hqid : q.id = idq := by simpa using List.find?_some hfind
  exact List.inj_on_of_nodup_map hnd hr hq (by rw [hrid, hqid])

/-- Binding a failed Except value propagates the error. -/
theorem except_bind_error {α β : Type} (e : String) (f : α → Except String β) :
    ((Except.error e : Except String α) >>= f) = Except.error e := rfl

/-- Successful run of the `update` mutation. -/
theorem updatePost_eq (db : DB) (caller : String) (id : Nat) (args : UpdateArgs) (now : Int)
    (user : User) (post : Post)
    (hu : uniqueFilter db.users (fun x => x.tokenIdentifier == caller) = Except.ok (some user))
    (hp : getPost db id = some post) (hauth : post.authorId = user.id) :
    updatePost db (some caller) id args now =
      Except.ok ({ db with posts := patchById db.posts id (fun _ => applyUpdateData post args now) }, id) := by
  simp only [updatePost, hu, except_bind_ok, hp]
  rw [if_neg (fun hcon => hcon hauth)]
  rfl

/-- Run of the `create` mutation that publishes the existing draft. -/
theorem createPost_publish_draft (db : DB) (caller : String) (args : CreateArgs) (now : Int)
    (user : User) (d : Post)
    (hu : uniqueFilter db.users (fun x => x.tokenIdentifier == caller) = Except.ok (some user))
    (hd : uniqueFilter db.posts (fun p => p.authorId == user.id && p.status == PostStatus.draft)
      = Except.ok (some d))
    (hst : args.status = PostStatus.published) :
    createPost db (some caller) args now =
      Except.ok ({ db with posts := patchById db.posts d.id (fun p =>
        { p with title := args.title, content := args.content,
                 status := PostStatus.published, tags := args.tags.getD [],
                 category := args.category, featuredImage := args.featuredImage,
                 updatedAt := now, publishedAt := some now, scheduledFor := args.scheduledFor }) },
        d.id) := by
  simp only [createPost, hu, except_bind_ok, hd, hst]
  rfl

/-- Run of the `create` mutation that updates the existing draft in
place, leaving status and publishedAt untouched. -/
theorem createPost_update_draft (db : DB) (caller : String) (args : CreateArgs) (now : Int)
    (user : User) (d : Post)
    (hu : uniqueFilter db.users (fun x => x.tokenIdentifier == caller) = Except.ok (some user))
    (hd : uniqueFilter db.posts (fun p => p.authorId == user.id && p.status == PostStatus.draft)
      = Except.ok (some d))
    (hst : args.status = PostStatus.draft) :
    createPost db (some caller) args now =
      Except.ok ({ db with posts := patchById db.posts d.id (fun p =>
        { p with title := args.title, content := args.content,
                 tags := args.tags.getD [], category := args.category,
                 featuredImage := args.featuredImage, updatedAt := now,
                 scheduledFor := args.scheduledFor }) },
        d.id) := by
  simp only [createPost, hu, except_bind_ok, hd, hst]
  rfl

/-- The fresh post record inserted by the `create` mutation. -/
def mkNewPost (args : CreateArgs) (uid : Nat) (now : Int) (pid : Nat) : Post :=
  { id := pid, authorId := uid, title := args.title, content := args.content,
    status := args.status, tags := args.tags.getD [], category := args.category,
    featuredImage := args.featuredImage, createdAt := now, updatedAt := now,
    publishedAt := if args.status == PostStatus.published then some now else none,
    scheduledFor := args.scheduledFor, viewCount := 0, likeCount := 0 }

/-- Run of the `create` mutation that inserts a fresh post. -/
theorem createPost_insert (db : DB) (caller : String) (args : CreateArgs) (now : Int)
    (user : User)
    (hu : uniqueFilter db.users (fun x => x.tokenIdentifier == caller) = Except.ok (some user))
    (hd : uniqueFilter db.posts (fun p => p.authorId == user.id && p.status == PostStatus.draft)
      = Except.ok none) :
    createPost db (some caller) args now =
      Except.ok ({ db with
        posts := db.posts ++ [mkNewPost args user.id now db.nextId],
        nextId := db.nextId + 1 }, db.nextId) := by
  simp only [createPost, hu, except_bind_ok, hd]
  cases hst : args.status <;> simp [hst, mkNewPost] <;> rfl

/-- Generic step facts for a mutation that patches rows of one id:
well-formedness is preserved, an assigned `publishedAt` persists, and a
change of `publishedAt` can only be its first assignment, at the
operation timestamp, together with a published status. -/
theorem step_patch (db : DB) (pid : Nat) (f : Post → Post) (tm : Int)
    (hwf : postsWellFormed db)
    (hfid : ∀ p, p.id = pid → (f p).id = p.id)
    (hJp : ∀ p, p ∈ db.posts → p.id = pid → (f p).status = PostStatus.draft →
      (f p).publishedAt = none)
    (hstab : ∀ p, p ∈ db.posts → p.id = pid → ∀ t, p.publishedAt = some t →
      (f p).publishedAt = some t)
    (hch : ∀ p, p ∈ db.posts → p.id = pid → (f p).publishedAt ≠ p.publishedAt →
      p.publishedAt = none ∧ (f p).publishedAt = some tm ∧ (f p).status = PostStatus.published) :
    postsWellFormed { db with posts := patchById db.posts pid f } ∧
    (∀ id t, postPublishedAt db id = some t →
      postPublishedAt { db with posts := patchById db.posts pid f } id = some t) ∧
    (∀ id, postPublishedAt { db with posts := patchById db.posts pid f } id ≠ postPublishedAt db id →
      postPublishedAt db id = none ∧
      postPublishedAt { db with posts := patchById db.posts pid f } id = some tm ∧
      postStatusOf { db with posts := patchById db.posts pid f } id = some PostStatus.published) := by
  obtain ⟨hJ, hnd, hfr⟩ := hwf
  have hfind : ∀ idq : Nat, getPost { db with posts := patchById db.posts pid f } idq =
      (db.posts.find? (fun p => p.id == idq)).map (fun p => if p.id == pid then f p else p) := by
    intro idq
    unfold getPost
    exact find?_patchById_general db.posts pid idq f hfid
  refine ⟨⟨?_, ?_, ?_⟩, ?_, ?_⟩
  · intro r hr hrd
    obtain ⟨pp, hp, hcase⟩ := mem_patchById db.posts pid f r hr
    rcases hcase with ⟨hpid, hre⟩ | ⟨hpid, hre⟩
    · subst hre
      exact hJp pp hp hpid hrd
    · subst hre
      exact hJ r hp hrd
  · show (List.map (fun p => p.id) (patchById db.posts pid f)).Nodup
    rw [patchById_map_id db.posts pid f hfid]
    exact hnd
  · intro r hr
    obtain ⟨pp, hp, hcase⟩ := mem_patchById db.posts pid f r hr
    rcases hcase with ⟨hpid, hre⟩ | ⟨hpid, hre⟩
    · subst hre
      show (f pp).id < db.nextId
      rw [hfid pp hpid]
      exact hfr pp hp
    · subst hre
      exact hfr r hp
  · intro idq t ht
    obtain ⟨q, hq, hqt⟩ := Option.bind_eq_some.mp ht
    have hq2 : db.posts.find? (fun p => p.id == idq) = some q := hq
    unfold postPublishedAt
    rw [hfind idq, hq2]
    by_cases hqe : q.id = pid
    · have hst2 := hstab q (List.mem_of_find?_eq_some hq2) hqe t hqt
      simp [hqe, hst2]
    · simp [hqe, hqt]
  · intro idq hne
    have hfind2 : postPublishedAt { db with posts := patchById db.posts pid f } idq =
        ((db.posts.find? (fun p => p.id == idq)).map
          (fun p => if p.id == pid then f p else p)).bind (fun p => p.publishedAt) := by
      unfold postPublishedAt
      rw [hfind idq]
    have hbefore : postPublishedAt db idq =
        (db.posts.find? (fun p => p.id == idq)).bind (fun p => p.publishedAt) := rfl
    have hstatus : postStatusOf { db with posts := patchById db.posts pid f } idq =
        ((db.posts.find? (fun p => p.id == idq)).map
          (fun p => if p.id == pid then f p else p)).map (fun p => p.status) := by
      unfold postStatusOf
      rw [hfind idq]
    rw [hfind2, hbefore] at hne
    rw [hfind2, hbefore, hstatus]
    cases hq : db.posts.find? (fun p => p.id == idq) with
    | none =>
      rw [hq] at hne
      simp at hne
    | some q =>
      rw [hq] at hne
      by_cases hqe : q.id = pid
      · simp only [Option.map_some', Option.some_bind] at hne
        rw [if_pos (show (q.id == pid) = true by simpa using hqe)] at hne
        have hc := hch q (List.mem_of_find?_eq_some hq) hqe hne
        refine ⟨?_, ?_, ?_⟩
        · simp [hc.1]
        · simp [hqe, hc.2.1]
        · simp [hqe, hc.2.2]
      · simp only [Option.map_some', Option.some_bind] at hne
        simp [hqe] at hne

/-- Generic step facts for a mutation that appends one fresh post. -/
theorem step_insert (db : DB) (newP : Post) (tm : Int)
    (hwf : postsWellFormed db)
    (hid : newP.id = db.nextId)
    (hJn : newP.status = PostStatus.draft → newP.publishedAt = none)
    (hchn : ∀ t, newP.publishedAt = some t → t = tm ∧ newP.status = PostStatus.published) :
    postsWellFormed { db with posts := db.posts ++ [newP], nextId := db.nextId + 1 } ∧
    (∀ id t, postPublishedAt db id = some t →
      postPublishedAt { db with posts := db.posts ++ [newP], nextId := db.nextId + 1 } id = some t) ∧
    (∀ id, postPublishedAt { db with posts := db.posts ++ [newP], nextId := db.nextId + 1 } id
        ≠ postPublishedAt db id →
      postPublishedAt db id = none ∧
      postPublishedAt { db with posts := db.posts ++ [newP], nextId := db.nextId + 1 } id = some tm ∧
      postStatusOf { db with posts := db.posts ++ [newP], nextId := db.nextId + 1 } id
        = some PostStatus.published) := by
  obtain ⟨hJ, hnd, hfr⟩ := hwf
  have hfind : ∀ idq : Nat, getPost { db with posts := db.posts ++ [newP], nextId := db.nextId + 1 } idq =
      (db.posts.find? (fun p => p.id == idq)).or ([newP].find? (fun p => p.id == idq)) := by
    intro idq
    unfold getPost
    exact List.find?_append
  refine ⟨⟨?_, ?_, ?_⟩, ?_, ?_⟩
  · intro r hr hrd
    rcases List.mem_append.mp hr with h | h
    · exact hJ r h hrd
    · have hrn : r = newP := by simpa using h
      rw [hrn] at hrd ⊢
      exact hJn hrd
  · show (List.map (fun p => p.id) (db.posts ++ [newP])).Nodup
    rw [List.map_append, List.nodup_append]
    refine ⟨hnd, by simp, ?_⟩
    intro a ha hb
    obtain ⟨p, hp, hpa⟩ := List.mem_map.mp ha
    have hab : a = newP.id := by simpa using hb
    have hplt := hfr p hp
    rw [hid] at hab
    omega
  · intro r hr
    show r.id < db.nextId + 1
    rcases List.mem_append.mp hr with h | h
    · have := hfr r h
      omega
    · have hrn : r = newP := by simpa using h
      rw [hrn, hid]
      omega
  · intro idq t ht
    obtain ⟨q, hq, hqt⟩ := Option.bind_eq_some.mp ht
    have hq2 : db.posts.find? (fun p => p.id == idq) = some q := hq
    unfold postPublishedAt
    rw [hfind idq, hq2]
    simp [hqt]
  · intro idq hne
    have hfind2 : postPublishedAt { db with posts := db.posts ++ [newP], nextId := db.nextId + 1 } idq =
        ((db.posts.find? (fun p => p.id == idq)).or ([newP].find? (fun p => p.id == idq))).bind
          (fun p => p.publishedAt) := by
      unfold postPublishedAt
      rw [hfind idq]
    have hbefore : postPublishedAt db idq =
        (db.posts.find? (fun p => p.id == idq)).bind (fun p => p.publishedAt) := rfl
    have hstatus : postStatusOf { db with posts := db.posts ++ [newP], nextId := db.nextId + 1 } idq =
        ((db.posts.find? (fun p => p.id == idq)).or ([newP].find? (fun p => p.id == idq))).map
          (fun p => p.status) := by
      unfold postStatusOf
      rw [hfind idq]
    rw [hfind2, hbefore] at hne
    rw [hfind2, hbefore, hstatus]
    cases hq : db.posts.find? (fun p => p.id == idq) with
    | some q =>
      rw [hq] at hne
      simp at hne
    | none =>
      rw [hq] at hne
      cases hn : List.find? (fun p => p.id == idq) [newP] with
      | none =>
        rw [hn] at hne
        simp at hne
      | some w =>
        have hw : w = newP := by
          have := List.mem_of_find?_eq_some hn
          simpa using this
        rw [hn] at hne
        rw [hw] at hne
        rw [hw]
        simp only [Option.none_or, Option.some_bind, Option.none_bind] at hne ⊢
        cases hpa : newP.publishedAt with
        | none =>
          rw [hpa] at hne
          simp at hne
        | some t2 =>
          have hc := hchn t2 hpa
          exact ⟨trivial, by rw [hc.1], by simp [hc.2]⟩

/-- A `.unique()` call that returns a row returns a stored row matching
the predicate. -/
theorem uniqueFilter_ok_some {α : Type} (l : List α) (p : α → Bool) (a : α)
    (h : uniqueFilter l p = Except.ok (some a)) : a ∈ l ∧ p a = true := by
  unfold uniqueFilter at h
  cases hf : l.filter p with
  | nil =>
    rw [hf] at h
    simp at h
  | cons b t =>
    cases t with
    | nil =>
      rw [hf] at h
      simp at h
      subst h
      have hb : b ∈ l.filter p := by
        rw [hf]
        exact List.mem_singleton_self b
      exact ⟨List.mem_of_mem_filter hb, List.of_mem_filter hb⟩
    | cons c t2 =>
      rw [hf] at h
      simp at h

/-- Step facts hold trivially for an operation that leaves the store
unchanged. -/
theorem step_trivial (db : DB) (tm : Int) (hwf : postsWellFormed db) :
    postsWellFormed db ∧
    (∀ id t, postPublishedAt db id = some t → postPublishedAt db id = some t) ∧
    (∀ id, postPublishedAt db id ≠ postPublishedAt db id →
      postPublishedAt db id = none ∧ postPublishedAt db id = some tm ∧
      postStatusOf db id = some PostStatus.published) :=
  ⟨hwf, fun _ _ h => h, fun _ h => absurd rfl h⟩

/-- Step facts for an arbitrary non-reverting operation run against a
well-formed store: well-formedness is preserved, an assigned
`publishedAt` persists, and a change of `publishedAt` is its first
assignment, stamped with the operation time, on a published post. -/
theorem applyOp_step (db : DB) (op : PostOp)
    (hwf : postsWellFormed db)
    (hnr : stepReverts db op = false) :
    postsWellFormed (applyOp db op) ∧
    (∀ id t, postPublishedAt db id = some t → postPublishedAt (applyOp db op) id = some t) ∧
    (∀ id, postPublishedAt (applyOp db op) id ≠ postPublishedAt db id →
      postPublishedAt db id = none ∧
      postPublishedAt (applyOp db op) id = some (opTime op) ∧
      postStatusOf (applyOp db op) id = some PostStatus.published) := by
  cases op with
  | createOp caller args now =>
    cases hu : uniqueFilter db.users (fun u => u.tokenIdentifier == caller) with
    | error e =>
      have hc : createPost db (some caller) args now = Except.error e := by
        simp only [createPost, hu, except_bind_error]
      have heq : applyOp db (PostOp.createOp caller args now) = db := by
        simp [applyOp, hc]
      rw [heq]
      exact step_trivial db _ hwf
    | ok uo =>
      cases uo with
      | none =>
        have hc : createPost db (some caller) args now = Except.error "User not found" := by
          simp only [createPost, hu, except_bind_ok]
        have heq : applyOp db (PostOp.createOp caller args now) = db := by
          simp [applyOp, hc]
        rw [heq]
        exact step_trivial db _ hwf
      | some user =>
        cases hd : uniqueFilter db.posts
            (fun p => p.authorId == user.id && p.status == PostStatus.draft) with
        | error e =>
          have hc : createPost db (some caller) args now = Except.error e := by
            simp only [createPost, hu, except_bind_ok, hd, except_bind_error]
          have heq : applyOp db (PostOp.createOp caller args now) = db := by
            simp [applyOp, hc]
          rw [heq]
          exact step_trivial db _ hwf
        | ok dro =>
          cases dro with
          | some d =>
            obtain ⟨hdmem, hdpred⟩ := uniqueFilter_ok_some _ _ _ hd
            have hdstat : d.status = PostStatus.draft := by
              have h2 := (Bool.and_eq_true_iff.mp hdpred).2
              simpa using h2
            have hJ := hwf.1
            have hnd := hwf.2.1
            cases hst : args.status with
            | published =>
              have hceq := createPost_publish_draft db caller args now user d hu hd hst
              have heq : applyOp db (PostOp.createOp caller args now) =
                  { db with posts := patchById db.posts d.id (fun p =>
                    { p with title := args.title, content := args.content,
                             status := PostStatus.published, tags := args.tags.getD [],
                             category := args.category, featuredImage := args.featuredImage,
                             updatedAt := now, publishedAt := some now,
                             scheduledFor := args.scheduledFor }) } := by
                simp [applyOp, hceq]
              rw [heq]
              refine step_patch db d.id _ now hwf (fun p _ => rfl) ?_ ?_ ?_
              · intro p hp hpid hdr
                simp at hdr
              · intro p hp hpid t ht
                have hpd : p = d := List.inj_on_of_nodup_map hnd hp hdmem hpid
                rw [hpd, hJ d hdmem hdstat] at ht
                simp at ht
              · intro p hp hpid hne2
                have hpd : p = d := List.inj_on_of_nodup_map hnd hp hdmem hpid
                refine ⟨?_, rfl, rfl⟩
                rw [hpd]
                exact hJ d hdmem hdstat
            | draft =>
              have hceq := createPost_update_draft db caller args now user d hu hd hst
              have heq : applyOp db (PostOp.createOp caller args now) =
                  { db with posts := patchById db.posts d.id (fun p =>
                    { p with title := args.title, content := args.content,
                             tags := args.tags.getD [], category := args.category,
                             featuredImage := args.featuredImage, updatedAt := now,
                             scheduledFor := args.scheduledFor }) } := by
                simp [applyOp, hceq]
              rw [heq]
              refine step_patch db d.id _ now hwf (fun p _ => rfl) ?_ ?_ ?_
              · intro p hp hpid hdr
                exact hJ p hp hdr
              · intro p hp hpid t ht
                exact ht
              · intro p hp hpid hne2
                exact absurd rfl hne2
          | none =>
            have hceq := createPost_insert db caller args now user hu hd
            have heq : applyOp db (PostOp.createOp caller args now) =
                { db with
                  posts := db.posts ++ [mkNewPost args user.id now db.nextId]
                  nextId := db.nextId + 1 } := by
              simp [applyOp, hceq]
            rw [heq]
            refine step_insert db (mkNewPost args user.id now db.nextId) now hwf rfl ?_ ?_
            · intro hdr
              simp only [mkNewPost] at hdr ⊢
              simp [hdr]
            · intro t ht
              cases hst : args.status with
              | draft =>
                simp [mkNewPost, hst] at ht
              | published =>
                simp [mkNewPost, hst] at ht
                exact ⟨ht.symm, by simp [mkNewPost, hst]⟩
  | updateOp caller pid args now =>
    cases hu : uniqueFilter db.users (fun u => u.tokenIdentifier == caller) with
    | error e =>
      have hc : updatePost db (some caller) pid args now = Except.error e := by
        simp only [updatePost, hu, except_bind_error]
      have heq : applyOp db (PostOp.updateOp caller pid args now) = db := by
        simp [applyOp, hc]
      rw [heq]
      exact step_trivial db _ hwf
    | ok uo =>
      cases uo with
      | none =>
        have hc : updatePost db (some caller) pid args now = Except.error "User not found" := by
          simp only [updatePost, hu, except_bind_ok]
        have heq : applyOp db (PostOp.updateOp caller pid args now) = db := by
          simp [applyOp, hc]
        rw [heq]
        exact step_trivial db _ hwf
      | some user =>
        cases hp : getPost db pid with
        | none =>
          have hc : updatePost db (some caller) pid args now = Except.error "Post not found" := by
            simp only [updatePost, hu, except_bind_ok, hp]
          have heq : applyOp db (PostOp.updateOp caller pid args now) = db := by
            simp [applyOp, hc]
          rw [heq]
          exact step_trivial db _ hwf
        | some post =>
          by_cases hauth : post.authorId = user.id
          · have hueq := updatePost_eq db caller pid args now user post hu hp hauth
            have heq : applyOp db (PostOp.updateOp caller pid args now) =
                { db with
                  posts := patchById db.posts pid (fun _ => applyUpdateData post args now) } := by
              simp [applyOp, hueq]
            rw [heq]
            have hpostmem : post ∈ db.posts := List.mem_of_find?_eq_some hp
            have hpostid : post.id = pid := by simpa using List.find?_some hp
            have hJ := hwf.1
            have hnd := hwf.2.1
            have hnr2 : ¬(args.status = some PostStatus.draft ∧
                post.status = PostStatus.published) := by
              intro hcon
              have h2 : stepReverts db (PostOp.updateOp caller pid args now) = true := by
                simp [stepReverts, hp, hcon.1, hcon.2]
              rw [h2] at hnr
              simp at hnr
            refine step_patch db pid (fun _ => applyUpdateData post args now) now hwf ?_ ?_ ?_ ?_
            · intro p hpid
              show (applyUpdateData post args now).id = p.id
              rw [applyUpdateData_id, hpostid, hpid]
            · intro p hp2 hpid hdr
              show (applyUpdateData post args now).publishedAt = none
              have hdr2 : (applyUpdateData post args now).status = PostStatus.draft := hdr
              rw [applyUpdateData_status] at hdr2
              rw [applyUpdateData_publishedAt]
              cases hst : args.status with
              | none =>
                rw [hst] at hdr2
                simp at hdr2
                have hpnone := hJ post hpostmem hdr2
                simp [hst, hpnone]
              | some st =>
                rw [hst] at hdr2
                simp at hdr2
                subst hdr2
                have hpd : post.status = PostStatus.draft := by
                  cases hps : post.status with
                  | draft => rfl
                  | published => exact absurd ⟨hst, hps⟩ hnr2
                have hpnone := hJ post hpostmem hpd
                simp [hst, hpnone]
            · intro p hp2 hpid t ht
              have hpeq : p = post := find?_eq_of_mem_of_nodup db.posts pid post p hnd hp hp2 hpid
              show (applyUpdateData post args now).publishedAt = some t
              rw [applyUpdateData_publishedAt]
              rw [hpeq] at ht
              cases hps : post.status with
              | draft =>
                rw [hJ post hpostmem hps] at ht
                simp at ht
              | published =>
                simp [hps, ht]
            · intro p hp2 hpid hne2
              have hpeq : p = post := find?_eq_of_mem_of_nodup db.posts pid post p hnd hp hp2 hpid
              have hne3 : (applyUpdateData post args now).publishedAt ≠ p.publishedAt := hne2
              rw [applyUpdateData_publishedAt, hpeq] at hne3
              rw [hpeq]
              by_cases hcond : (args.status == some PostStatus.published &&
                  post.status == PostStatus.draft) = true
              · have hpd : post.status = PostStatus.draft := by
                  have h2 := (Bool.and_eq_true_iff.mp hcond).2
                  simpa using h2
                have hargs : args.status = some PostStatus.published := by
                  have h2 := (Bool.and_eq_true_iff.mp hcond).1
                  simpa using h2
                refine ⟨hJ post hpostmem hpd, ?_, ?_⟩
                · show (applyUpdateData post args now).publishedAt = some now
                  rw [applyUpdateData_publishedAt]
                  rw [if_pos hcond]
                · show (applyUpdateData post args now).status = PostStatus.published
                  rw [applyUpdateData_status]
                  simp [hargs]
              · rw [if_neg hcond] at hne3
                exact absurd rfl hne3
          · have hc : updatePost db (some caller) pid args now = Except.error "Not authorized" := by
              simp only [updatePost, hu, except_bind_ok, hp]
              rw [if_pos hauth]
            have heq : applyOp db (PostOp.updateOp caller pid args now) = db := by
              simp [applyOp, hc]
            rw [heq]
            exact step_trivial db _ hwf

/-- Running an appended trace is running the two parts in sequence. -/
theorem applyOps_append (db : DB) (l1 l2 : List PostOp) :
    applyOps db (l1 ++ l2) = applyOps (applyOps db l1) l2 := by
  simp [applyOps]

/-- `noReversion` splits over an appended trace. -/
theorem noReversion_append (db : DB) (l1 l2 : List PostOp) :
    noReversion db (l1 ++ l2) =
      (noReversion db l1 && noReversion (applyOps db l1) l2) := by
  induction l1 generalizing db with
  | nil => simp [noReversion, applyOps]
  | cons op rest ih =>
    show (!stepReverts db op && noReversion (applyOp db op) (rest ++ l2)) =
      ((!stepReverts db op && noReversion (applyOp db op) rest) &&
        noReversion (applyOps db (op :: rest)) l2)
    rw [ih (applyOp db op), ← Bool.and_assoc]
    rfl

/-- Over a non-reverting trace, well-formedness is preserved and an
assigned `publishedAt` persists. -/
theorem applyOps_step (db : DB) (ops : List PostOp)
    (hwf : postsWellFormed db)
    (hnr : noReversion db ops = true) :
    postsWellFormed (applyOps db ops) ∧
    (∀ id t, postPublishedAt db id = some t → postPublishedAt (applyOps db ops) id = some t) := by
  induction ops generalizing db with
  | nil => exact ⟨hwf, fun _ _ h => h⟩
  | cons op rest ih =>
    have hnr2 : (!stepReverts db op && noReversion (applyOp db op) rest) = true := hnr
    have hs : stepReverts db op = false := by
      have h2 := (Bool.and_eq_true_iff.mp hnr2).1
      simpa using h2
    have hstep := applyOp_step db op hwf hs
    have hrest := ih (applyOp db op) hstep.1 (Bool.and_eq_true_iff.mp hnr2).2
    exact ⟨hrest.1, fun id t ht => hrest.2 id t (hstep.2.1 id t ht)⟩

/-- Create-mutation arguments for a fresh draft. -/
def c6DraftArgs : CreateArgs :=
  { title := "a", content := "b", status := PostStatus.draft, tags := none,
    category := none, featuredImage := none, scheduledFor := none }

/-- Update-mutation arguments that only set the status. -/
def c6StatusArgs (st : PostStatus) : UpdateArgs :=
  { title := none, content := none, status := some st, tags := none,
    category := none, featuredImage := none, scheduledFor := none }

/-- A store with one registered user and no posts. -/
def c6DB : DB :=
  { emptyDB with users := [u1] }

def c6op1 : PostOp := PostOp.createOp "t1" c6DraftArgs 1

def c6op2 : PostOp := PostOp.updateOp "t1" 0 (c6StatusArgs PostStatus.published) 2

def c6op3 : PostOp := PostOp.updateOp "t1" 0 (c6StatusArgs PostStatus.draft) 3

def c6op4 : PostOp := PostOp.updateOp "t1" 0 (c6StatusArgs PostStatus.published) 4

/-- C6 counterexample: the `update` mutation accepts a published-to-draft
status change without clearing `publishedAt`, so a later re-publish runs
the draft-to-published branch again and reassigns `publishedAt`: after
create-draft and publish at time 2 the post carries `publishedAt = 2`,
the revert at time 3 keeps `publishedAt = 2` on a draft, and the second
publish at time 4 overwrites it with 4. -/
theorem publishedAt_once_counterexample :
    postPublishedAt (applyOps c6DB [c6op1, c6op2]) 0 = some 2 ∧
    postPublishedAt (applyOps c6DB [c6op1, c6op2, c6op3]) 0 = some 2 ∧
    postStatusOf (applyOps c6DB [c6op1, c6op2, c6op3]) 0 = some PostStatus.draft ∧
    postPublishedAt (applyOps c6DB [c6op1, c6op2, c6op3, c6op4]) 0 = some 4 := by
  decide

/-- C6 (amended): over any trace of create and update mutations in which
no step moves a currently published post back to draft, starting from a
well-formed store: once `publishedAt` is assigned it keeps its value to
the end of the trace, and any step that changes a post's `publishedAt`
is its first assignment (the value was absent before), stamps the
operation's timestamp, leaves the post published, and the value persists
unchanged through the rest of the trace. The unconditional claim is
refuted by the reverting trace of the counterexample. -/
theorem publishedAt_once (db : DB) (ops1 : List PostOp) (op : PostOp) (ops2 : List PostOp)
    (hwf : postsWellFormed db)
    (hnr : noReversion db (ops1 ++ op :: ops2) = true) :
    (∀ id t, postPublishedAt (applyOps db ops1) id = some t →
      postPublishedAt (applyOps db (ops1 ++ op :: ops2)) id = some t) ∧
    (∀ id, postPublishedAt (applyOps db (ops1 ++ [op])) id ≠ postPublishedAt (applyOps db ops1) id →
      postPublishedAt (applyOps db ops1) id = none ∧
      postPublishedAt (applyOps db (ops1 ++ [op])) id = some (opTime op) ∧
      postStatusOf (applyOps db (ops1 ++ [op])) id = some PostStatus.published ∧
      postPublishedAt (applyOps db (ops1 ++ op :: ops2)) id = some (opTime op)) := by
  have hda : applyOps db (ops1 ++ [op]) = applyOp (applyOps db ops1) op := by
    rw [applyOps_append]
    rfl
  have hdb2 : applyOps db (ops1 ++ op :: ops2) =
      applyOps (applyOp (applyOps db ops1) op) ops2 := by
    have hsplit : ops1 ++ op :: ops2 = (ops1 ++ [op]) ++ ops2 := by simp
    rw [hsplit, applyOps_append, hda]
  have hnr3 : (noReversion db ops1 && noReversion (applyOps db ops1) (op :: ops2)) = true := by
    rw [← noReversion_append]
    exact hnr
  have hnr1 := (Bool.and_eq_true_iff.mp hnr3).1
  have hnrt : (!stepReverts (applyOps db ops1) op &&
      noReversion (applyOp (applyOps db ops1) op) ops2) = true :=
    (Bool.and_eq_true_iff.mp hnr3).2
  have hsr : stepReverts (applyOps db ops1) op = false := by
    have h2 := (Bool.and_eq_true_iff.mp hnrt).1
    simpa using h2
  have hnr2 : noReversion (applyOp (applyOps db ops1) op) ops2 = true :=
    (Bool.and_eq_true_iff.mp hnrt).2
  have hwf1 := (applyOps_step db ops1 hwf hnr1).1
  have hstep := applyOp_step (applyOps db ops1) op hwf1 hsr
  have htail := applyOps_step (applyOp (applyOps db ops1) op) ops2 hstep.1 hnr2
  refine ⟨?_, ?_⟩
  · intro id t ht
    rw [hdb2]
    exact htail.2 id t (hstep.2.1 id t ht)
  · intro id hne
    rw [hda] at hne
    have hc := hstep.2.2 id hne
    refine ⟨hc.1, ?_, ?_, ?_⟩
    · rw [hda]
      exact hc.2.1
    · rw [hda]
      exact hc.2.2
    · rw [hdb2]
      exact htail.2 id (opTime op) hc.2.1

/-- C6 witness: the amended invariant applied to the non-reverting trace
create-draft then publish, with the publish step as the distinguished
operation. -/
theorem publishedAt_once_witness :
    postsWellFormed c6DB ∧
    noReversion c6DB ([c6op1] ++ c6op2 :: []) = true ∧
    ((∀ id t, postPublishedAt (applyOps c6DB [c6op1]) id = some t →
      postPublishedAt (applyOps c6DB ([c6op1] ++ c6op2 :: [])) id = some t) ∧
    (∀ id, postPublishedAt (applyOps c6DB ([c6op1] ++ [c6op2])) id
        ≠ postPublishedAt (applyOps c6DB [c6op1]) id →
      postPublishedAt (applyOps c6DB [c6op1]) id = none ∧
      postPublishedAt (applyOps c6DB ([c6op1] ++ [c6op2])) id = some (opTime c6op2) ∧
      postStatusOf (applyOps c6DB ([c6op1] ++ [c6op2])) id = some PostStatus.published ∧
      postPublishedAt (applyOps c6DB ([c6op1] ++ c6op2 :: [])) id = some (opTime c6op2))) :=
  ⟨by unfold postsWellFormed; decide, by decide,
    publishedAt_once c6DB [c6op1] c6op2 [] (by unfold postsWellFormed; decide) (by decide)⟩
